import Mathlib

/-!
Verification development for the mmrl deterministic market-making
simulation core (Python sources under src/mmrl).

Python floats are modelled as exact rationals (the source performs all
equality / executability comparisons against the fixed epsilon 1e-12, see
spec §9 "Determinism of floats"); `math.isfinite` checks of the source
hold identically on every rational, so they are not reproduced.
Python dicts are modelled as insertion-ordered association lists
(update-in-place on existing key, append on new key), matching dict
semantics.  Exceptions (`raise ValueError` etc.) are modelled with
`Except String`.
-/

set_option allowUnsafeReducibility true in
attribute [semireducible] Rat.mul Rat.add Rat.sub Rat.inv Rat.div Rat.neg

deriving instance DecidableEq for Except

namespace MMRL

/-- Fixed epsilon used by every component (1e-12 in the source). -/
def EPS : ℚ := mkRat 1 1000000000000

/-- Absolute value on rationals, written so that it evaluates by kernel
reduction (`abs` on Q goes through lattice instances that do not reduce).
`qabs_eq_abs` below identifies it with `|·|`. -/
def qabs (q : ℚ) : ℚ := if q < 0 then -q else q

/-- Binary minimum that evaluates by kernel reduction; Python `min`. -/
def qmin (a b : ℚ) : ℚ := if a ≤ b then a else b

/-- Division on rationals that evaluates by kernel reduction (the `/`
notation resolves to field-structure projections that do not);
`qdiv_eq_div` below identifies it with `/`. -/
def qdiv (a b : ℚ) : ℚ := Rat.div a b

/-- Maximum of a list (Python `max(dict.keys())`), `none` on empty. -/
def qmaxList (l : List ℚ) : Option ℚ :=
  l.foldl (fun acc x => match acc with
    | none => some x
    | some m => some (if m ≤ x then x else m)) none

/-- Minimum of a list (Python `min(dict.keys())`), `none` on empty. -/
def qminList (l : List ℚ) : Option ℚ :=
  l.foldl (fun acc x => match acc with
    | none => some x
    | some m => some (if x ≤ m then x else m)) none

/-- Order side, `Literal["buy", "sell"]` in the source. -/
inductive Side where
  | buy
  | sell
deriving DecidableEq, Repr

/-- Book side, `Literal["bid", "ask"]` in the source. -/
inductive BookSide where
  | bid
  | ask
deriving DecidableEq, Repr

/-- Order status, `Literal["open", "filled", "canceled", "rejected"]`
(`open` is a Lean keyword, rendered `opened`). -/
inductive OrderStatus where
  | opened
  | filled
  | canceled
  | rejected
deriving DecidableEq, Repr

/-- Signed quantity: `RiskManager._signed` — `qty if side == "buy" else -qty`. -/
def signedQty (side : Side) (qty : ℚ) : ℚ :=
  match side with
  | .buy => qty
  | .sell => -qty

/-- Association-list lookup modelling Python `dict.get(k)`. -/
def kvGet {K α : Type} [DecidableEq K] (m : List (K × α)) (k : K) : Option α :=
  match m with
  | [] => none
  | (k', v) :: rest => if k' = k then some v else kvGet rest k

/-- Association-list lookup with default, modelling `dict.get(k, d)`. -/
def kvGetD {K α : Type} [DecidableEq K] (m : List (K × α)) (k : K) (d : α) : α :=
  (kvGet m k).getD d

/-- Association-list update modelling `dict[k] = v`: replace in place if the
key exists, append at the end otherwise (Python dict insertion order). -/
def kvSet {K α : Type} [DecidableEq K] (m : List (K × α)) (k : K) (v : α) : List (K × α) :=
  match m with
  | [] => [(k, v)]
  | (k', v') :: rest => if k' = k then (k, v) :: rest else (k', v') :: kvSet rest k v

/-- Association-list removal modelling `dict.pop(k, None)`. -/
def kvErase {K α : Type} [DecidableEq K] (m : List (K × α)) (k : K) : List (K × α) :=
  match m with
  | [] => []
  | (k', v') :: rest => if k' = k then rest else (k', v') :: kvErase rest k

/-! ## Order records (src/mmrl/execution/oms/orders.py) -/

/-- `OrderRecord` dataclass. -/
structure OrderRecord where
  symbol : String
  order_id : String
  side : Side
  price : Option ℚ
  quantity : ℚ
  remaining : ℚ
  status : OrderStatus
deriving DecidableEq, Repr

/-- `OrderRecord.apply_fill`: no-op when not open, `ValueError` on a
non-positive fill or a fill exceeding `remaining + 1e-12`; otherwise
decrement `remaining`, snapping to `0`/`filled` within epsilon. -/
def OrderRecord.applyFill (r : OrderRecord) (fill_qty : ℚ) : Except String OrderRecord :=
  if r.status ≠ .opened then .ok r
  else if fill_qty ≤ 0 then .error "fill_qty must be > 0"
  else if fill_qty > r.remaining + EPS then .error "fill_qty exceeds remaining"
  else
    let rem := r.remaining - fill_qty
    if rem ≤ EPS then .ok { r with remaining := 0, status := .filled }
    else .ok { r with remaining := rem }

/-- `OrderRecord.cancel`: no-op when not open, else status := canceled and
remaining := 0. -/
def OrderRecord.cancel (r : OrderRecord) : OrderRecord :=
  if r.status ≠ .opened then r
  else { r with status := .canceled, remaining := 0 }

/-! ## Position accounting (src/mmrl/execution/oms/positions.py) -/

/-- `Position` dataclass. -/
structure Position where
  symbol : String
  inventory : ℚ
  avg_price : ℚ
  realized_pnl : ℚ
deriving DecidableEq, Repr

/-- Fresh position, `Position(symbol=symbol)` defaults. -/
def Position.init (symbol : String) : Position :=
  ⟨symbol, 0, 0, 0⟩

/-- `Position.on_fill`: validation, flat-open, same-direction weighted
average, opposite-direction reduce / close / flip.  Faithful to the source
branch order. -/
def Position.onFill (p : Position) (side : Side) (qty price : ℚ) : Except String Position :=
  if qty ≤ 0 then .error "qty must be > 0"
  else if price ≤ 0 then .error "price must be > 0"
  else
    let signed := signedQty side qty
    if qabs p.inventory ≤ EPS then
      .ok { p with inventory := signed, avg_price := price }
    else
      let inv := p.inventory
      if (inv > 0 ∧ signed > 0) ∨ (inv < 0 ∧ signed < 0) then
        let newInv := inv + signed
        .ok { p with
                inventory := newInv,
                avg_price := qdiv (p.avg_price * qabs inv + price * qabs signed) (qabs newInv) }
      else
        let closeQty := qmin (qabs inv) (qabs signed)
        let rp :=
          if inv > 0 then p.realized_pnl + (price - p.avg_price) * closeQty
          else p.realized_pnl + (p.avg_price - price) * closeQty
        let newInv := inv + signed
        if qabs newInv ≤ EPS then
          .ok { p with inventory := 0, avg_price := 0, realized_pnl := rp }
        else if (inv > 0 ∧ newInv < 0) ∨ (inv < 0 ∧ newInv > 0) then
          .ok { p with inventory := newInv, avg_price := price, realized_pnl := rp }
        else
          .ok { p with inventory := newInv, realized_pnl := rp }

/-! ## Risk manager (src/mmrl/execution/oms/risk.py) -/

/-- `RiskLimits` dataclass. -/
structure RiskLimits where
  max_order_qty : ℚ
  max_abs_inventory : ℚ
  max_order_notional : Option ℚ
deriving DecidableEq, Repr

/-- `RiskCheckResult` dataclass. -/
structure RiskCheckResult where
  ok : Bool
  reason : String
deriving DecidableEq, Repr

/-- Mutable state of `RiskManager`. -/
structure RiskState where
  limits : RiskLimits
  inventory_by_symbol : List (String × ℚ)
  reserved_by_symbol : List (String × ℚ)
  reservation_by_order_id : List (String × String × Side × ℚ)
deriving DecidableEq, Repr

/-- Fresh risk manager for the given limits. -/
def RiskState.init (limits : RiskLimits) : RiskState :=
  ⟨limits, [], [], []⟩

/-- `RiskManager.inventory`. -/
def RiskState.inventory (rs : RiskState) (symbol : String) : ℚ :=
  kvGetD rs.inventory_by_symbol symbol 0

/-- `RiskManager.reserved`. -/
def RiskState.reserved (rs : RiskState) (symbol : String) : ℚ :=
  kvGetD rs.reserved_by_symbol symbol 0

/-- `RiskManager._validate_qty`: finite and `> 1e-12` (finiteness is
automatic for rationals). -/
def validQty (qty : ℚ) : Bool :=
  decide (qty > EPS)

/-- `RiskManager._validate_price`: `None` or finite positive. -/
def validPrice (price : Option ℚ) : Bool :=
  match price with
  | none => true
  | some p => decide (p > 0)

/-- `RiskManager.on_fill`: update inventory by the signed fill; if a
reservation exists for the order on the same symbol, move the reserved
exposure from the old remaining to the new remaining (`remaining_qty`
defaults to 0 when omitted), snap epsilon drift to zero, and drop the
reservation once the remaining is within epsilon. -/
def RiskState.onFill (rs : RiskState) (symbol : String) (side : Side) (qty : ℚ)
    (order_id : Option String) (remaining_qty : Option ℚ) : Except String RiskState :=
  if ¬ validQty qty then .error "qty must be finite and > 0"
  else
    let signedFill := signedQty side qty
    let rs1 := { rs with
      inventory_by_symbol :=
        kvSet rs.inventory_by_symbol symbol (rs.inventory symbol + signedFill) }
    match order_id with
    | none => .ok rs1
    | some oid =>
      match kvGet rs1.reservation_by_order_id oid with
      | none => .ok rs1
      | some (rsym, rside, rqty_abs) =>
        if rsym ≠ symbol then .ok rs1
        else
          let rem0 := remaining_qty.getD 0
          let rem := if rem0 < 0 then 0 else rem0
          let oldSigned := signedQty rside rqty_abs
          let newSigned := signedQty rside rem
          let newReserved := rs1.reserved symbol + (newSigned - oldSigned)
          let newReserved := if qabs newReserved ≤ EPS then 0 else newReserved
          let rs2 := { rs1 with
            reserved_by_symbol := kvSet rs1.reserved_by_symbol symbol newReserved }
          if rem ≤ EPS then
            .ok { rs2 with reservation_by_order_id := kvErase rs2.reservation_by_order_id oid }
          else
            .ok { rs2 with
              reservation_by_order_id :=
                kvSet rs2.reservation_by_order_id oid (symbol, rside, rem) }

/-- `RiskManager.on_cancel`: pop the reservation and subtract its signed
contribution, snapping epsilon drift to zero. -/
def RiskState.onCancel (rs : RiskState) (order_id : String) : RiskState :=
  match kvGet rs.reservation_by_order_id order_id with
  | none => rs
  | some (symbol, side, qty_abs) =>
    let newReserved := rs.reserved symbol - signedQty side qty_abs
    let newReserved := if qabs newReserved ≤ EPS then 0 else newReserved
    { rs with
      reservation_by_order_id := kvErase rs.reservation_by_order_id order_id,
      reserved_by_symbol := kvSet rs.reserved_by_symbol symbol newReserved }

/-- The notional cap test of `check_new_order`:
`max_order_notional is not None and price is not None` and the notional
exceeds the cap plus epsilon (the notional of rationals is always finite). -/
def notionalGate (limits : RiskLimits) (qty : ℚ) (price : Option ℚ) : Bool :=
  match limits.max_order_notional, price with
  | some mon, some p => decide (qty * p > mon + EPS)
  | _, _ => false

/-- `RiskManager.check_new_order`: the four gates in source order, then the
idempotent reservation on success. -/
def RiskState.checkNewOrder (rs : RiskState) (symbol : String) (side : Side) (qty : ℚ)
    (price : Option ℚ) (order_id : Option String) : RiskCheckResult × RiskState :=
  if ¬ validQty qty then (⟨false, "qty_non_positive_or_invalid"⟩, rs)
  else if qty > rs.limits.max_order_qty + EPS then (⟨false, "qty_exceeds_max_order_qty"⟩, rs)
  else if ¬ validPrice price then (⟨false, "invalid_price"⟩, rs)
  else if notionalGate rs.limits qty price then
    (⟨false, "notional_exceeds_max_order_notional"⟩, rs)
  else
    let inv := rs.inventory symbol
    let reserved := rs.reserved symbol
    let signed := signedQty side qty
    let projected := inv + reserved + signed
    if qabs projected > rs.limits.max_abs_inventory + EPS then
      (⟨false, "inventory_limit_breach"⟩, rs)
    else
      match order_id with
      | some oid =>
        if (kvGet rs.reservation_by_order_id oid).isNone then
          (⟨true, "ok"⟩,
           { rs with
               reservation_by_order_id :=
                 kvSet rs.reservation_by_order_id oid (symbol, side, qty),
               reserved_by_symbol := kvSet rs.reserved_by_symbol symbol (reserved + signed) })
        else (⟨true, "ok"⟩, rs)
      | none => (⟨true, "ok"⟩, rs)

/-! ## Fill models (src/mmrl/execution/model/fill_model.py) -/

/-- `BestBidAskUpdate` market event (market.best_bid_ask). -/
structure BBO where
  symbol : String
  bid_price : ℚ
  bid_size : ℚ
  ask_price : ℚ
  ask_size : ℚ
deriving DecidableEq, Repr

/-- `FillDecision` dataclass.  (`FillDecision.validate` is an internal
assertion the reference models never trip; the properties it asserts are
proved as theorems below.) -/
structure FillDecision where
  executable : Bool
  fill_price : Option ℚ
  fill_qty : Option ℚ
deriving DecidableEq, Repr

/-- Non-executable decision, `FillDecision(executable=False)`. -/
def FillDecision.no : FillDecision :=
  ⟨false, none, none⟩

/-- `TopOfBookFullFillModel.decide`. -/
def fullFillDecide (order : OrderRecord) (bbo : BBO) : FillDecision :=
  if order.status ≠ .opened then .no
  else
    match order.price with
    | none => .no
    | some p =>
      if ¬ (bbo.bid_price > 0) ∨ ¬ (bbo.ask_price > 0) then .no
      else if order.remaining ≤ EPS then .no
      else
        match order.side with
        | .buy =>
          if p + EPS ≥ bbo.ask_price then ⟨true, some bbo.ask_price, some order.remaining⟩
          else .no
        | .sell =>
          if p - EPS ≤ bbo.bid_price then ⟨true, some bbo.bid_price, some order.remaining⟩
          else .no

/-- `TopOfBookCappedFillModel.decide`. -/
def cappedFillDecide (order : OrderRecord) (bbo : BBO) : FillDecision :=
  if order.status ≠ .opened then .no
  else
    match order.price with
    | none => .no
    | some p =>
      if ¬ (bbo.bid_price > 0) ∨ ¬ (bbo.ask_price > 0) then .no
      else if order.remaining ≤ EPS then .no
      else
        match order.side with
        | .buy =>
          if p + EPS ≥ bbo.ask_price ∧ bbo.ask_size > EPS then
            ⟨true, some bbo.ask_price, some (qmin order.remaining bbo.ask_size)⟩
          else .no
        | .sell =>
          if p - EPS ≤ bbo.bid_price ∧ bbo.bid_size > EPS then
            ⟨true, some bbo.bid_price, some (qmin order.remaining bbo.bid_size)⟩
          else .no

/-- The two reference fill models wired into the paper adapter. -/
inductive FillModelKind where
  | full
  | capped
deriving DecidableEq, Repr

/-- Dispatch to the selected reference fill model. -/
def decideFill (fm : FillModelKind) (order : OrderRecord) (bbo : BBO) : FillDecision :=
  match fm with
  | .full => fullFillDecide order bbo
  | .capped => cappedFillDecide order bbo

/-! ## Paper execution adapter (src/mmrl/execution/paper/adapter.py) -/

/-- Events the paper adapter publishes on the bus (order.accepted /
order.rejected / order.canceled / order.fill), each carrying the sequence
allocated from engine state at the publish site. -/
inductive OutEvent where
  | accepted (symbol order_id : String) (side : Side) (price : Option ℚ)
      (quantity : ℚ) (sequence : Nat)
  | rejected (symbol order_id reason : String) (sequence : Nat)
  | canceledEv (symbol order_id : String) (sequence : Nat)
  | fill (symbol order_id : String) (side : Side) (fill_price fill_quantity
      remaining_quantity : ℚ) (sequence : Nat)
deriving DecidableEq, Repr

/-- Mutable state of `PaperExecutionAdapter`, together with the shared
engine sequence counter and the events it has published. -/
structure AdapterState where
  bbo_by_symbol : List (String × BBO)
  orders : List (String × OrderRecord)
  orders_by_symbol : List (String × List String)
  positions : List (String × Position)
  risk : RiskState
  sequence : Nat
  emitted : List OutEvent
deriving DecidableEq, Repr

/-- Fresh adapter over a fresh risk manager. -/
def AdapterState.init (limits : RiskLimits) : AdapterState :=
  ⟨[], [], [], [], RiskState.init limits, 0, []⟩

/-- Remove an id from the symbol index,
`self._orders_by_symbol.get(symbol, set()).discard(order_id)`. -/
def removeFromSymIndex (m : List (String × List String)) (symbol oid : String) :
    List (String × List String) :=
  match kvGet m symbol with
  | none => m
  | some ids => kvSet m symbol (ids.filter (fun i => i ≠ oid))

/-- Add an id to the symbol index,
`self._orders_by_symbol.setdefault(symbol, set()).add(order_id)`. -/
def addToSymIndex (m : List (String × List String)) (symbol oid : String) :
    List (String × List String) :=
  let ids := kvGetD m symbol []
  kvSet m symbol (if oid ∈ ids then ids else ids ++ [oid])

/-- `PaperExecutionAdapter._try_fill`.  Note: the source calls
`self._risk.on_fill(symbol=..., side=..., qty=..., order_id=...)` WITHOUT
`remaining_qty`, which is therefore `None` here. -/
def AdapterState.tryFill (st : AdapterState) (fm : FillModelKind) (oid : String) :
    Except String AdapterState :=
  match kvGet st.orders oid with
  | none => .ok st
  | some order =>
    if order.status ≠ .opened then .ok st
    else
      match kvGet st.bbo_by_symbol order.symbol with
      | none => .ok st
      | some bbo =>
        let d := decideFill fm order bbo
        if d.executable = false then .ok st
        else
          match d.fill_price, d.fill_qty with
          | some fill_price, some fill_qty =>
            if fill_qty ≤ 0 then .ok st
            else do
              let order' ← order.applyFill fill_qty
              let pos := kvGetD st.positions order.symbol (Position.init order.symbol)
              let pos' ← pos.onFill order.side fill_qty fill_price
              let risk' ← st.risk.onFill order.symbol order.side fill_qty (some order.order_id) none
              let obs :=
                if order'.status ≠ .opened then
                  removeFromSymIndex st.orders_by_symbol order.symbol order.order_id
                else st.orders_by_symbol
              let seq := st.sequence + 1
              .ok { st with
                orders := kvSet st.orders oid order',
                positions := kvSet st.positions order.symbol pos',
                risk := risk',
                orders_by_symbol := obs,
                sequence := seq,
                emitted := st.emitted ++
                  [.fill order.symbol order.order_id order.side fill_price fill_qty
                    order'.remaining seq] }
          | _, _ => .error "FillModel returned executable without fill_price/fill_qty"

/-- The `order.submitted` event payload consumed by the adapter. -/
structure SubmittedEvent where
  symbol : String
  order_id : String
  side : Side
  price : Option ℚ
  quantity : ℚ
deriving DecidableEq, Repr

/-- `PaperExecutionAdapter._on_order_submitted`: risk gate, reject or
accept + index + immediate try-fill when a BBO is known. -/
def AdapterState.onOrderSubmitted (st : AdapterState) (fm : FillModelKind)
    (e : SubmittedEvent) : Except String AdapterState :=
  let rcrs := st.risk.checkNewOrder e.symbol e.side e.quantity e.price (some e.order_id)
  let rc := rcrs.1
  let st1 := { st with risk := rcrs.2 }
  if rc.ok = false then
    let seq := st1.sequence + 1
    .ok { st1 with
      sequence := seq,
      emitted := st1.emitted ++ [.rejected e.symbol e.order_id rc.reason seq] }
  else
    let r0 : OrderRecord :=
      ⟨e.symbol, e.order_id, e.side, e.price, e.quantity, e.quantity, .opened⟩
    let seq := st1.sequence + 1
    let st2 := { st1 with
      orders := kvSet st1.orders e.order_id r0,
      orders_by_symbol := addToSymIndex st1.orders_by_symbol e.symbol e.order_id,
      sequence := seq,
      emitted := st1.emitted ++
        [.accepted e.symbol e.order_id e.side e.price e.quantity seq] }
    if (kvGet st2.bbo_by_symbol e.symbol).isSome then st2.tryFill fm e.order_id
    else .ok st2

/-- `PaperExecutionAdapter._on_cancel_requested`: unknown id,
symbol-mismatched, or non-open records are a no-op; otherwise cancel,
release reservation, publish `order.canceled`. -/
def AdapterState.onCancelRequested (st : AdapterState) (symbol order_id : String) :
    AdapterState :=
  match kvGet st.orders order_id with
  | none => st
  | some r =>
    if r.symbol ≠ symbol then st
    else if r.status ≠ .opened then st
    else
      let r' := r.cancel
      let seq := st.sequence + 1
      { st with
        orders := kvSet st.orders order_id r',
        orders_by_symbol := removeFromSymIndex st.orders_by_symbol r.symbol r.order_id,
        risk := st.risk.onCancel order_id,
        sequence := seq,
        emitted := st.emitted ++ [.canceledEv symbol order_id seq] }

/-- The body of `_on_bbo`'s loop over the snapshot of open ids: skip ids
whose record has vanished or is no longer open, else try-fill. -/
def bboStep (fm : FillModelKind) (s : AdapterState) (oid : String) :
    Except String AdapterState :=
  match kvGet s.orders oid with
  | none => .ok s
  | some r => if r.status ≠ .opened then .ok s else s.tryFill fm oid

/-- `PaperExecutionAdapter._on_bbo`: cache the BBO, then try-fill every
open order for the symbol over a snapshot of the id set.  (Python iterates
the snapshot in set order; the snapshot here is the index list, which is
order-irrelevant for the verified properties.) -/
def AdapterState.onBBO (st : AdapterState) (fm : FillModelKind) (e : BBO) :
    Except String AdapterState :=
  let st1 := { st with bbo_by_symbol := kvSet st.bbo_by_symbol e.symbol e }
  let oids := kvGetD st1.orders_by_symbol e.symbol []
  oids.foldlM (bboStep fm) st1

/-- Inputs the paper adapter subscribes to. -/
inductive AdapterEvent where
  | submitted (e : SubmittedEvent)
  | cancelRequested (symbol order_id : String)
  | bboEvent (e : BBO)
deriving DecidableEq, Repr

/-- One bus dispatch into the paper adapter. -/
def AdapterState.step (st : AdapterState) (fm : FillModelKind) (ev : AdapterEvent) :
    Except String AdapterState :=
  match ev with
  | .submitted e => st.onOrderSubmitted fm e
  | .cancelRequested symbol order_id => .ok (st.onCancelRequested symbol order_id)
  | .bboEvent e => st.onBBO fm e

/-! ## Fixed-spread strategy (src/mmrl/strategies/baselines/fixed_spread.py) -/

/-- `FixedSpreadConfig` dataclass. -/
structure FixedSpreadConfig where
  symbol : String
  spread : ℚ
  order_size : ℚ
  max_inventory : ℚ
  inventory_skew_k : ℚ
  min_mid_move : ℚ
  min_ticks_between_quotes : ℤ
deriving DecidableEq, Repr

/-- Deterministic order id.  The source computes
`sha1(run_id|tick|side|price:.8f|qty:.8f)[:16]`; the hash is abstracted
here as the (injective) payload it digests, since no verified property
depends on the hex representation. -/
structure OrdId where
  run_id : String
  tick : ℤ
  side : Side
  price : ℚ
  qty : ℚ
deriving DecidableEq, Repr

/-- Mutable state of `FixedSpreadMarketMaker`. -/
structure StratState where
  inventory : ℚ
  last_mid : Option ℚ
  last_quote_tick : ℤ
  active_bid_id : Option OrdId
  active_ask_id : Option OrdId
  active_bid_price : Option ℚ
  active_ask_price : Option ℚ
  pending_bid : Option (ℚ × ℚ)
  pending_ask : Option (ℚ × ℚ)
deriving DecidableEq, Repr

/-- Constructor state of the strategy (`last_quote_tick = -10**9`). -/
def StratState.init : StratState :=
  ⟨0, none, -(10 ^ 9 : ℤ), none, none, none, none, none, none⟩

/-- Intents the strategy publishes (order.submitted / order.cancel_requested). -/
inductive Intent where
  | submit (symbol : String) (order_id : OrdId) (side : Side) (price qty : ℚ)
  | cancelRequested (symbol : String) (order_id : OrdId)
deriving DecidableEq, Repr

/-- `FixedSpreadMarketMaker._same_price`. -/
def samePrice (a : ℚ) (b : Option ℚ) : Bool :=
  match b with
  | none => false
  | some b => decide (qabs (a - b) ≤ EPS)

/-- `FixedSpreadMarketMaker._make_order` (id only; the published
`OrderSubmitted` is rebuilt by the caller as an `Intent`). -/
def makeOrdId (run_id : String) (tick : ℤ) (side : Side) (price qty : ℚ) : OrdId :=
  ⟨run_id, tick, side, price, qty⟩

/-- `FixedSpreadMarketMaker._on_fill`: accumulate signed inventory, clear
the matching side's active and pending slots. -/
def stratOnFill (cfg : FixedSpreadConfig) (s : StratState) (symbol : String)
    (order_id : OrdId) (side : Side) (fill_quantity : ℚ) : StratState :=
  if symbol ≠ cfg.symbol then s
  else
    let signed := if side = .buy then fill_quantity else -fill_quantity
    let s1 := { s with inventory := s.inventory + signed }
    let s2 :=
      if s1.active_bid_id = some order_id then
        { s1 with active_bid_id := none, active_bid_price := none, pending_bid := none }
      else s1
    if s2.active_ask_id = some order_id then
      { s2 with active_ask_id := none, active_ask_price := none, pending_ask := none }
    else s2

/-- `FixedSpreadMarketMaker._on_canceled`: on a cancel ack of an active
side, clear it and promote its staged replacement (if any) to active,
publishing the replacement order. -/
def stratOnCanceled (cfg : FixedSpreadConfig) (run_id : String) (tick : ℤ)
    (s : StratState) (symbol : String) (order_id : OrdId) : StratState × List Intent :=
  if symbol ≠ cfg.symbol then (s, [])
  else
    let bidStep : StratState × List Intent :=
      if s.active_bid_id = some order_id then
        let s1 := { s with active_bid_id := none, active_bid_price := none }
        match s1.pending_bid with
        | some pq =>
          let o := makeOrdId run_id tick .buy pq.1 pq.2
          ({ s1 with pending_bid := none, active_bid_id := some o,
                     active_bid_price := some pq.1 },
           [.submit cfg.symbol o .buy pq.1 pq.2])
        | none => (s1, [])
      else (s, [])
    let s2 := bidStep.1
    let askStep : StratState × List Intent :=
      if s2.active_ask_id = some order_id then
        let s3 := { s2 with active_ask_id := none, active_ask_price := none }
        match s3.pending_ask with
        | some pq =>
          let o := makeOrdId run_id tick .sell pq.1 pq.2
          ({ s3 with pending_ask := none, active_ask_id := some o,
                     active_ask_price := some pq.1 },
           [.submit cfg.symbol o .sell pq.1 pq.2])
        | none => (s3, [])
      else (s2, [])
    (askStep.1, bidStep.2 ++ askStep.2)

/-- Quote one side inside `_on_bbo` (the bid and ask blocks are
structurally identical in the source). -/
def quoteSide (cfg : FixedSpreadConfig) (run_id : String) (tick : ℤ) (side : Side)
    (quote size : ℚ) (activeId : Option OrdId) (activePrice : Option ℚ)
    (pending : Option (ℚ × ℚ)) :
    Option OrdId × Option ℚ × Option (ℚ × ℚ) × List Intent :=
  if size > 0 then
    let needNew := activeId.isNone ∨ activePrice.isNone ∨ ¬ samePrice quote activePrice
    if needNew then
      match pending with
      | some _ => (activeId, activePrice, some (quote, size), [])
      | none =>
        match activeId with
        | some aid =>
          (activeId, activePrice, some (quote, size), [.cancelRequested cfg.symbol aid])
        | none =>
          let o := makeOrdId run_id tick side quote size
          (some o, some quote, pending, [.submit cfg.symbol o side quote size])
    else (activeId, activePrice, pending, [])
  else (activeId, activePrice, pending, [])

/-- `FixedSpreadMarketMaker._on_bbo`: symbol / sanity gates, throttling,
mid + skewed quotes, inventory size clamps, then the cancel/replace state
machine per side. -/
def stratOnBBO (cfg : FixedSpreadConfig) (run_id : String) (tick : ℤ)
    (s : StratState) (e : BBO) : StratState × List Intent :=
  if e.symbol ≠ cfg.symbol then (s, [])
  else if e.bid_price ≤ 0 ∨ e.ask_price ≤ 0 ∨ e.ask_price ≤ e.bid_price then (s, [])
  else
    let mid := qdiv (e.bid_price + e.ask_price) 2
    if tick - s.last_quote_tick < cfg.min_ticks_between_quotes then (s, [])
    else if (match s.last_mid with
             | some lm => decide (qabs (mid - lm) < cfg.min_mid_move)
             | none => false) then (s, [])
    else
      let s1 := { s with last_mid := some mid, last_quote_tick := tick }
      let skew := cfg.inventory_skew_k * s1.inventory
      let half := qdiv cfg.spread 2
      let bidQuote := mid - half - skew
      let askQuote := mid + half - skew
      let buySize := if s1.inventory ≥ cfg.max_inventory then 0 else cfg.order_size
      let sellSize := if s1.inventory ≤ -cfg.max_inventory then 0 else cfg.order_size
      let bq := quoteSide cfg run_id tick .buy bidQuote buySize
        s1.active_bid_id s1.active_bid_price s1.pending_bid
      let s2 := { s1 with active_bid_id := bq.1, active_bid_price := bq.2.1,
                          pending_bid := bq.2.2.1 }
      let aq := quoteSide cfg run_id tick .sell askQuote sellSize
        s2.active_ask_id s2.active_ask_price s2.pending_ask
      let s3 := { s2 with active_ask_id := aq.1, active_ask_price := aq.2.1,
                          pending_ask := aq.2.2.1 }
      (s3, bq.2.2.2 ++ aq.2.2.2)

/-- Inputs the strategy subscribes to; `tick` is the engine tick at
dispatch time (the source reads `self._state.tick`). -/
inductive StratEvent where
  | bboEv (tick : ℤ) (e : BBO)
  | fillEv (symbol : String) (order_id : OrdId) (side : Side) (fill_quantity : ℚ)
  | canceledEv (tick : ℤ) (symbol : String) (order_id : OrdId)
deriving DecidableEq, Repr

/-- One bus dispatch into the strategy. -/
def stratStep (cfg : FixedSpreadConfig) (run_id : String) (s : StratState)
    (ev : StratEvent) : StratState × List Intent :=
  match ev with
  | .bboEv tick e => stratOnBBO cfg run_id tick s e
  | .fillEv symbol oid side q => (stratOnFill cfg s symbol oid side q, [])
  | .canceledEv tick symbol oid => stratOnCanceled cfg run_id tick s symbol oid

/-- Strategy state after a trace of dispatches from the constructor state. -/
def stratRun (cfg : FixedSpreadConfig) (run_id : String) (trace : List StratEvent) :
    StratState :=
  trace.foldl (fun s ev => (stratStep cfg run_id s ev).1) StratState.init

/-! ## Order book (src/mmrl/marketdata/orderbook/book.py) -/

/-- `OrderBookLevelUpdate` market event (market.order_book_level). -/
structure L2Ev where
  symbol : String
  side : BookSide
  price : ℚ
  size : ℚ
deriving DecidableEq, Repr

/-- `BestBidAsk` dataclass returned by `OrderBook.best()`. -/
structure BestBidAsk where
  bid_price : Option ℚ
  bid_size : Option ℚ
  ask_price : Option ℚ
  ask_size : Option ℚ
deriving DecidableEq, Repr

/-- `OrderBook`: per-symbol price→size maps plus the cached best prices
the source recomputes after every update. -/
structure Book where
  symbol : String
  bids : List (ℚ × ℚ)
  asks : List (ℚ × ℚ)
  best_bid : Option ℚ
  best_ask : Option ℚ
deriving DecidableEq, Repr

/-- Fresh book, `OrderBook(symbol=symbol)`. -/
def Book.init (symbol : String) : Book :=
  ⟨symbol, [], [], none, none⟩

/-- `OrderBook._apply` on one side's map: size 0 deletes the level,
otherwise sets it. -/
def applyMap (m : List (ℚ × ℚ)) (price size : ℚ) : List (ℚ × ℚ) :=
  if size = 0 then kvErase m price else kvSet m price size

/-- `OrderBook.apply_level_update`: validations, side dispatch, and the
recomputation of the cached best price from the residual map. -/
def Book.applyLevelUpdate (b : Book) (u : L2Ev) : Except String Book :=
  if u.symbol ≠ b.symbol then .error "update symbol mismatch"
  else if ¬ (u.price > 0) then .error "price must be > 0"
  else if u.size < 0 then .error "size must be >= 0"
  else
    match u.side with
    | .bid =>
      let m := applyMap b.bids u.price u.size
      .ok { b with bids := m, best_bid := qmaxList (m.map Prod.fst) }
    | .ask =>
      let m := applyMap b.asks u.price u.size
      .ok { b with asks := m, best_ask := qminList (m.map Prod.fst) }

/-- `OrderBook.best`. -/
def Book.best (b : Book) : BestBidAsk :=
  ⟨b.best_bid, b.best_bid.bind (fun p => kvGet b.bids p),
   b.best_ask, b.best_ask.bind (fun p => kvGet b.asks p)⟩

/-! ## Order-book adapter (src/mmrl/marketdata/orderbook/adapter.py) -/

/-- The internal top-of-book four-tuple the adapter compares
(`Option`-valued exactly as in the source). -/
abbrev BestTuple := Option ℚ × Option ℚ × Option ℚ × Option ℚ

/-- Mutable state of `OrderBookComponent`: the book plus the last emitted
tuple. -/
structure ObState where
  book : Book
  last_best : Option BestTuple
deriving DecidableEq, Repr

/-- Fresh order-book component for a symbol. -/
def ObState.init (symbol : String) : ObState :=
  ⟨Book.init symbol, none⟩

/-- `OrderBookComponent._on_l2`: fold the update, emit a `best_bid_ask`
event (absent sides as zeros, with a freshly allocated sequence) only when
the four-tuple differs from the last emitted one.  Returns the new
component state, the new sequence counter, and the emitted event if any. -/
def ObState.onL2 (st : ObState) (sequence : Nat) (e : L2Ev) :
    Except String (ObState × Nat × Option (BBO × Nat)) :=
  if e.symbol ≠ st.book.symbol then .ok (st, sequence, none)
  else do
    let b' ← st.book.applyLevelUpdate e
    let best := b'.best
    let now : BestTuple := (best.bid_price, best.bid_size, best.ask_price, best.ask_size)
    if st.last_best = some now then
      .ok (⟨b', st.last_best⟩, sequence, none)
    else
      let seq := sequence + 1
      .ok (⟨b', some now⟩, seq,
           some (⟨e.symbol, best.bid_price.getD 0, best.bid_size.getD 0,
                  best.ask_price.getD 0, best.ask_size.getD 0⟩, seq))

/-! ## Replay adapter + event journal
(src/mmrl/marketdata/replay/adapter.py, src/mmrl/core/run/assembly.py
`EventLogComponent`, src/mmrl/storage/jsonl.py)

The journal subsystem is modelled for the `paper_replay_l2` dispatch chain
the sources wire: the event-log component is registered first, so for every
published event it appends one line before any downstream handler runs; the
order-book component then reacts to level events and may publish a nested
`best_bid_ask`.  Each model event is journaled as its (event_type, sequence)
pair, which is what the persisted-sequence claims are about. -/

/-- `LevelUpdate` dataclass of a replay delta. -/
structure LevelUpdate where
  price : ℚ
  size : ℚ
deriving DecidableEq, Repr

/-- `OrderBookDelta` dataclass. -/
structure Delta where
  symbol : String
  bid_updates : List LevelUpdate
  ask_updates : List LevelUpdate
deriving DecidableEq, Repr

/-- State of the journal + replay + book subsystem: the shared sequence
counter, the book component, and the journal lines (event_type, sequence)
in append order. -/
structure RSys where
  sequence : Nat
  ob : ObState
  journal : List (String × Nat)
  dispatched : List (String × Nat)
deriving DecidableEq, Repr

/-- Fresh subsystem for a symbol. -/
def RSys.init (symbol : String) : RSys :=
  ⟨0, ObState.init symbol, [], []⟩

/-- Dispatch one published event: record bus dispatch, then the handlers in
subscription order — the event log first (appending exactly one line). -/
def RSys.dispatchLine (s : RSys) (tag : String) (seq : Nat) : RSys :=
  { s with dispatched := s.dispatched ++ [(tag, seq)],
           journal := s.journal ++ [(tag, seq)] }

/-- Publish one `market.order_book_level` event: journal line first
(subscription order), then `OrderBookComponent._on_l2`, whose nested
`market.best_bid_ask` publish — when emitted — is itself journaled before
the outer publish returns. -/
def RSys.publishL2 (s : RSys) (ev : L2Ev) (evSeq : Nat) : Except String RSys := do
  let s1 := s.dispatchLine "market.order_book_level" evSeq
  let r ← s1.ob.onL2 s1.sequence ev
  let s2 := { s1 with ob := r.1, sequence := r.2.1 }
  match r.2.2 with
  | none => .ok s2
  | some bbo => .ok (s2.dispatchLine "market.best_bid_ask" bbo.2)

/-- Sequence pre-allocation of `ReplayMarketDataAdapter._on_tick`: the level
events of a delta (bids then asks, input order preserved) each receive a
fresh sequence BEFORE any of them is published. -/
def allocLevelEvents (d : Delta) (seq0 : Nat) : List (L2Ev × Nat) × Nat :=
  let bidStep :=
    d.bid_updates.foldl
      (fun acc u => (acc.1 ++ [(⟨d.symbol, .bid, u.price, u.size⟩, acc.2 + 1)], acc.2 + 1))
      (([] : List (L2Ev × Nat)), seq0)
  d.ask_updates.foldl
    (fun acc u => (acc.1 ++ [(⟨d.symbol, .ask, u.price, u.size⟩, acc.2 + 1)], acc.2 + 1))
    bidStep

/-- `ReplayMarketDataAdapter._on_tick` for one delta: allocate all level
sequences, then publish the events in order. -/
def RSys.onTick (s : RSys) (d : Delta) : Except String RSys :=
  let alloc := allocLevelEvents d s.sequence
  let s1 := { s with sequence := alloc.2 }
  alloc.1.foldlM (fun st evp => st.publishL2 evp.1 evp.2) s1

/-- Drive one engine tick as the run loop does: allocate a sequence for the
`engine_tick` event, publish it (journal line first, then the replay
adapter consumes one delta). -/
def RSys.driveTick (s : RSys) (d : Delta) : Except String RSys :=
  let seq := s.sequence + 1
  let s1 := { s with sequence := seq }
  let s2 := s1.dispatchLine "system.engine_tick" seq
  s2.onTick d

/-! ## Run assembly (src/mmrl/core/run/assembly.py `build_run`) -/

/-- Run modes. -/
inductive RunMode where
  | paper_replay_l2
  | paper_external_bbo
  | paper_no_marketdata
deriving DecidableEq, Repr

/-- Tags for the components `build_run` can wire (plus the two components
that exist in the codebase without being wired by `build_run`). -/
inductive CompTag where
  | eventlogC
  | mdReplayC
  | orderBookC
  | strategyC
  | executionC
  | tickDriverC
  | riskCollectorC
  | extraC (n : Nat)
deriving DecidableEq, Repr

/-- `build_run`'s component list: the event log first, the mode-specific
chain, then the extra components last.  `hasReplay` models whether the
`replay_l2` datasource argument is `None`. -/
def buildComponents (mode : RunMode) (hasReplay : Bool) (extras : List CompTag) :
    Except String (List CompTag) :=
  match mode with
  | .paper_replay_l2 =>
    if hasReplay = false then .error "replay_l2 datasource is required for mode='paper_replay_l2'"
    else .ok ([.eventlogC] ++ [.mdReplayC, .orderBookC, .strategyC, .executionC] ++ extras)
  | .paper_external_bbo => .ok ([.eventlogC] ++ [.strategyC, .executionC] ++ extras)
  | .paper_no_marketdata => .ok ([.eventlogC] ++ [.strategyC, .executionC] ++ extras)

/-! ## Engine state and tick driver
(src/mmrl/core/engine/state.py, src/mmrl/core/engine/tick_driver.py) -/

/-- `EngineState` dataclass. -/
structure EngSt where
  run_id : String
  tick : Nat
  sequence : Nat
  is_running : Bool
deriving DecidableEq, Repr

/-- `EngineState.next_tick`: guarded by `is_running`. -/
def EngSt.nextTick (st : EngSt) : Except String (Nat × EngSt) :=
  if st.is_running = false then .error "cannot advance tick when engine is not running"
  else .ok (st.tick + 1, { st with tick := st.tick + 1 })

/-- `EngineState.next_sequence`: guarded by `is_running`. -/
def EngSt.nextSequence (st : EngSt) : Except String (Nat × EngSt) :=
  if st.is_running = false then .error "cannot advance sequence when engine is not running"
  else .ok (st.sequence + 1, { st with sequence := st.sequence + 1 })

/-- One loop iteration of `TickDriverComponent._on_run_started`: allocate
the tick, then the sequence, and publish `EngineTick(tick, sequence)`. -/
def tickDriverEmitOne (st : EngSt) : Except String ((Nat × Nat) × EngSt) := do
  let t ← st.nextTick
  let s ← t.2.nextSequence
  .ok ((t.1, s.1), s.2)

/-- `TickDriverComponent._on_run_started`: publish exactly `max_ticks`
`engine_tick` events; returns the (tick, sequence) pairs in publish order. -/
def tickDriverRun (maxTicks : Nat) (st : EngSt) : Except String (List (Nat × Nat) × EngSt) :=
  match maxTicks with
  | 0 => .ok ([], st)
  | n + 1 => do
    let e ← tickDriverEmitOne st
    let rest ← tickDriverRun n e.2
    .ok (e.1 :: rest.1, rest.2)

/-! ## JSONL replay datasource
(src/mmrl/marketdata/replay/jsonl_datasource.py) -/

/-- A level row as it appears in a parsed JSON line.  `pairRow` is the
2-tuple form `[price, size]`; `objRow` is the object form
`{"price": p, "size": s}` (in that insertion order). -/
inductive Row where
  | pairRow (price size : ℚ)
  | objRow (price size : ℚ)
deriving DecidableEq, Repr

/-- One line of the replay file after reading: blank, invalid JSON, or a
parsed object with its optional fields (`obj.get("symbol")`,
`obj.get("bid_updates", [])`, `obj.get("ask_updates", [])`). -/
inductive FileLine where
  | blank
  | badJson
  | deltaLine (symbol : Option String) (bid_updates ask_updates : List Row)
deriving DecidableEq, Repr

/-- Errors the datasource can raise: with or without the line number
attached to the message. -/
inductive ParseErr where
  | atLine (line_no : Nat) (msg : String)
  | noLine (msg : String)
deriving DecidableEq, Repr

/-- Unpack-and-convert of one row, `LevelUpdate(price=float(p), size=float(sz))
for p, sz in rows`: a 2-tuple unpacks to its numbers; a `{price,size}` dict
unpacks to its two KEY strings, so `float("price")` raises a `ValueError`
that carries no line number. -/
def codeParseRow (r : Row) : Except ParseErr LevelUpdate :=
  match r with
  | .pairRow p s => .ok ⟨p, s⟩
  | .objRow _ _ => .error (.noLine "could not convert string to float")

/-- Parse every row of one side (the generator raises at the first bad
row). -/
def codeParseRows (rows : List Row) : Except ParseErr (List LevelUpdate) :=
  match rows with
  | [] => .ok []
  | r :: rest => do
    let u ← codeParseRow r
    let us ← codeParseRows rest
    .ok (u :: us)

/-- `OrderBookDelta.validate` (delta.py): non-empty symbol, every price
positive, every size non-negative.  Raised errors carry no line number. -/
def deltaValidate (d : Delta) : Except ParseErr Delta :=
  if d.symbol = "" then .error (.noLine "symbol must be non-empty")
  else if ∀ u ∈ d.bid_updates ++ d.ask_updates, 0 < u.price ∧ 0 ≤ u.size then .ok d
  else .error (.noLine "invalid level")

/-- `JsonlReplayDataSource.__iter__` on one line (with its 1-based line
number): blank lines are skipped (`none`), invalid JSON raises citing the
line number, missing/invalid symbol raises citing the line number, and
each row is unpacked by `codeParseRow`. -/
def codeParseLine (line_no : Nat) (l : FileLine) : Except ParseErr (Option Delta) :=
  match l with
  | .blank => .ok none
  | .badJson => .error (.atLine line_no "invalid JSON")
  | .deltaLine symbol bids asks =>
    match symbol with
    | none => .error (.atLine line_no "missing/invalid 'symbol'")
    | some sym =>
      if sym = "" then .error (.atLine line_no "missing/invalid 'symbol'")
      else do
        let bu ← codeParseRows bids
        let au ← codeParseRows asks
        let d ← deltaValidate ⟨sym, bu, au⟩
        .ok (some d)

/-- The whole-file iteration of `JsonlReplayDataSource.__iter__`,
numbering lines from 1. -/
def codeIterate (lines : List FileLine) : Except ParseErr (List Delta) :=
  let step := fun (acc : List Delta × Nat) (l : FileLine) =>
    (codeParseLine acc.2 l).map (fun od =>
      (match od with
       | none => acc.1
       | some d => acc.1 ++ [d], acc.2 + 1))
  (lines.foldlM step ([], 1)).map Prod.fst

/-- Modelled from the spec: the row acceptance §6 "Replay JSONL" claims —
"Rows may be 2-tuples or `{price,size}` objects" — i.e. the row parser the
spec describes, accepting both forms.  (The source's
`normalize_l2_delta._parse_row` implements this acceptance, but the JSONL
datasource does not call it.) -/
def specParseRow (r : Row) : Except ParseErr LevelUpdate :=
  match r with
  | .pairRow p s => .ok ⟨p, s⟩
  | .objRow p s => .ok ⟨p, s⟩

/-! ## Derived notions used by the verified properties -/

/-- An adapter input is run-like when submitted order ids are fresh: the
deterministic sha1 ids the strategy generates are distinct per distinct
(tick, side, price, qty) payload, so a run never re-submits an id that
already has a record. -/
def freshOk (st : AdapterState) (ev : AdapterEvent) : Prop :=
  match ev with
  | .submitted e => kvGet st.orders e.order_id = none
  | _ => True

/-- Adapter states reachable during a run: the initial state, closed under
successful dispatches with fresh submitted ids. -/
inductive AReach (fm : FillModelKind) (limits : RiskLimits) : AdapterState → Prop where
  | init : AReach fm limits (AdapterState.init limits)
  | step {st st' : AdapterState} {ev : AdapterEvent} :
      AReach fm limits st → freshOk st ev → st.step fm ev = .ok st' → AReach fm limits st'

/-- Order-record invariant: unique ids and `0 ≤ remaining ≤ quantity`. -/
def OrdInv (st : AdapterState) : Prop :=
  (st.orders.map Prod.fst).Nodup ∧
  ∀ oid r, kvGet st.orders oid = some r → 0 ≤ r.remaining ∧ r.remaining ≤ r.quantity

/-- One-step status order: from `open` anywhere, terminal states only to
themselves. -/
def statusLE (a b : OrderStatus) : Prop :=
  a = .opened ∨ b = a

/-- Evolution of the order store across a dispatch: records never
disappear, statuses move along `open → {filled, canceled, rejected}` only,
and non-open records are never modified. -/
def OrdEvolve (st st' : AdapterState) : Prop :=
  ∀ oid r, kvGet st.orders oid = some r →
    ∃ r', kvGet st'.orders oid = some r' ∧ statusLE r.status r'.status ∧
      (r.status ≠ .opened → r' = r)

/-- Strategy invariant asserted by
`FixedSpreadMarketMaker._assert_invariants`: a pending replacement on a
side requires an active order on that side (the "at most one active order
per side" half is structural: the state holds one optional id per side). -/
def StratInv (s : StratState) : Prop :=
  (s.pending_bid.isSome → s.active_bid_id.isSome) ∧
  (s.pending_ask.isSome → s.active_ask_id.isSome)

/-- Fold a list of L2 events through the order-book component, collecting
the emitted `best_bid_ask` events in emission order. -/
def obRun (st : ObState) (sequence : Nat) (evs : List L2Ev) :
    Except String (ObState × Nat × List (BBO × Nat)) :=
  match evs with
  | [] => .ok (st, sequence, [])
  | e :: rest => do
    let r ← st.onL2 sequence e
    let r' ← obRun r.1 r.2.1 rest
    .ok (r'.1, r'.2.1, (match r.2.2 with | none => [] | some b => [b]) ++ r'.2.2)

/-- The emitted `best_bid_ask` event built from an internal top-of-book
tuple (absent sides as zeros). -/
def emitOf (symbol : String) (t : BestTuple) : BBO :=
  ⟨symbol, t.1.getD 0, t.2.1.getD 0, t.2.2.1.getD 0, t.2.2.2.getD 0⟩

/-- The four-tuple carried by an emitted `best_bid_ask` event. -/
def bboTuple (b : BBO) : ℚ × ℚ × ℚ × ℚ :=
  (b.bid_price, b.bid_size, b.ask_price, b.ask_size)

/-- The internal top-of-book four-tuple of a book (`now` in `_on_l2`). -/
def bestTupleOf (b : Book) : BestTuple :=
  (b.best.bid_price, b.best.bid_size, b.best.ask_price, b.best.ask_size)

/-- The zero-defaulted rendering of an internal tuple, as it appears in an
emitted event (symbol dropped). -/
def tupleEmit (t : BestTuple) : ℚ × ℚ × ℚ × ℚ :=
  (t.1.getD 0, t.2.1.getD 0, t.2.2.1.getD 0, t.2.2.2.getD 0)

/-- Internal tuples arising from a well-formed book: price and size are
absent together, and present values are positive. -/
def tupleValid (t : BestTuple) : Prop :=
  (∀ p, t.1 = some p → 0 < p) ∧ (∀ s, t.2.1 = some s → 0 < s) ∧
  (∀ p, t.2.2.1 = some p → 0 < p) ∧ (∀ s, t.2.2.2 = some s → 0 < s) ∧
  (t.1 = none ↔ t.2.1 = none) ∧ (t.2.2.1 = none ↔ t.2.2.2 = none)

/-- Book well-formedness: positive prices and sizes on both sides, and the
cached best prices agree with the maps they were recomputed from. -/
def BookInv (b : Book) : Prop :=
  (∀ p s, (p, s) ∈ b.bids → 0 < p ∧ 0 < s) ∧
  (∀ p s, (p, s) ∈ b.asks → 0 < p ∧ 0 < s) ∧
  b.best_bid = qmaxList (b.bids.map Prod.fst) ∧
  b.best_ask = qminList (b.asks.map Prod.fst)

/-! ## Concrete scenarios referenced by the verified properties -/

/-- Scenario S5 step 1: submit a 1.0-qty limit buy at 100 to a fresh paper
adapter with the capped fill model and limits
`max_order_qty = max_abs_inventory = 1`. -/
def c1Step1 : Except String AdapterState :=
  (AdapterState.init ⟨1, 1, none⟩).onOrderSubmitted .capped ⟨"S", "o1", .buy, some 100, 1⟩

/-- Scenario S5 step 2: a BBO with half a unit displayed at the ask
(99 bid / 100 ask, ask size 0.5) arrives, producing the first half-fill. -/
def c1Step2 : Except String AdapterState :=
  c1Step1 >>= fun st => st.onBBO .capped ⟨"S", 99, 1, 100, mkRat 1 2⟩

/-- Scenario S5 step 3: the same BBO arrives again, producing the second
half-fill that completes the order. -/
def c1Step3 : Except String AdapterState :=
  c1Step2 >>= fun st => st.onBBO .capped ⟨"S", 99, 1, 100, mkRat 1 2⟩

/-- Scenario S2: one tick whose delta sets two bid levels (100 then 99)
with no asks. -/
def c2delta : Delta :=
  ⟨"S", [⟨100, 1⟩, ⟨99, 1⟩], []⟩

/-- The concrete subsystem state after driving scenario S2's single tick
from a fresh subsystem: the engine tick takes sequence 1, the level events
pre-allocate 2 and 3, and the nested `best_bid_ask` published inside the
first level's dispatch takes 4 — so the journal order is 1, 2, 4, 3. -/
def c2res : RSys :=
  ⟨4, ⟨⟨"S", [(100, 1), (99, 1)], [], some 100, none⟩,
       some (some 100, some 1, none, none)⟩,
   [("system.engine_tick", 1), ("market.order_book_level", 2),
    ("market.best_bid_ask", 4), ("market.order_book_level", 3)],
   [("system.engine_tick", 1), ("market.order_book_level", 2),
    ("market.best_bid_ask", 4), ("market.order_book_level", 3)]⟩

/-! ## Bridge lemmas for the kernel-reducible arithmetic helpers -/

theorem qabs_eq_abs (q : ℚ) : qabs q = |q| := by
  unfold qabs
  split
  · exact (abs_of_neg (by assumption)).symm
  · exact (abs_of_nonneg (le_of_not_lt (by assumption))).symm

theorem qmin_eq_min (a b : ℚ) : qmin a b = min a b := by
  unfold qmin
  split
  · exact (min_eq_left (by assumption)).symm
  · exact (min_eq_right (le_of_not_le (by assumption))).symm

theorem qdiv_eq_div (a b : ℚ) : qdiv a b = a / b := rfl

theorem EPS_pos : 0 < EPS := by decide

theorem abs_signedQty (side : Side) (qty : ℚ) (h : 0 < qty) : |signedQty side qty| = qty := by
  cases side <;> simp [signedQty, abs_of_pos, abs_of_neg, h, neg_pos, abs_of_pos h]

/-! ## C5: position accounting -/

/-- C5: `Position.on_fill`, for `qty > 0` and `price > 0`, opens at
`(signed qty, price)` when flat, takes the size-weighted average entry on a
same-direction fill, and on an opposite-direction fill accrues
`(price − avg)·close` (long reducing) or `(avg − price)·close` (short
reducing) with `close = min (|inv|) qty`, setting `avg` to the fill price
when the residual flips sign and to `0` when the residual is zero (within
epsilon); in particular selling 2 at 100 when flat and then buying 3 at 90
yields realized pnl 20 and inventory +1 at average price 90. -/
theorem C5_position_onFill_spec :
    (∀ (p : Position) (side : Side) (qty price : ℚ), 0 < qty → 0 < price →
      (|p.inventory| ≤ EPS →
        p.onFill side qty price =
          .ok { p with inventory := signedQty side qty, avg_price := price }) ∧
      (EPS < |p.inventory| →
        ((0 < p.inventory ∧ 0 < signedQty side qty) ∨
         (p.inventory < 0 ∧ signedQty side qty < 0)) →
        p.onFill side qty price =
          .ok { p with inventory := p.inventory + signedQty side qty,
                       avg_price := (p.avg_price * abs p.inventory + price * qty) /
                         abs (p.inventory + signedQty side qty) }) ∧
      (EPS < |p.inventory| →
        ¬ ((0 < p.inventory ∧ 0 < signedQty side qty) ∨
           (p.inventory < 0 ∧ signedQty side qty < 0)) →
        (|p.inventory + signedQty side qty| ≤ EPS →
          p.onFill side qty price =
            .ok { p with inventory := 0, avg_price := 0,
                         realized_pnl := p.realized_pnl +
                           (if 0 < p.inventory then
                             (price - p.avg_price) * min (abs p.inventory) qty
                            else (p.avg_price - price) * min (abs p.inventory) qty) }) ∧
        (EPS < |p.inventory + signedQty side qty| →
          ((0 < p.inventory ∧ p.inventory + signedQty side qty < 0) ∨
            (p.inventory < 0 ∧ 0 < p.inventory + signedQty side qty) →
            p.onFill side qty price =
              .ok { p with inventory := p.inventory + signedQty side qty,
                           avg_price := price,
                           realized_pnl := p.realized_pnl +
                             (if 0 < p.inventory then
                               (price - p.avg_price) * min (abs p.inventory) qty
                              else (p.avg_price - price) * min (abs p.inventory) qty) }) ∧
          (¬ ((0 < p.inventory ∧ p.inventory + signedQty side qty < 0) ∨
              (p.inventory < 0 ∧ 0 < p.inventory + signedQty side qty)) →
            p.onFill side qty price =
              .ok { p with inventory := p.inventory + signedQty side qty,
                           realized_pnl := p.realized_pnl +
                             (if 0 < p.inventory then
                               (price - p.avg_price) * min (abs p.inventory) qty
                              else (p.avg_price - price) * min (abs p.inventory) qty) })))) ∧
    ((Position.init "S").onFill .sell 2 100 >>= fun p => p.onFill .buy 3 90)
      = .ok ⟨"S", 1, 90, 20⟩ := by
  constructor
  · intro p side qty price hq hp
    have hq' : ¬ qty ≤ 0 := not_le.mpr hq
    have hp' : ¬ price ≤ 0 := not_le.mpr hp
    have habs : qabs p.inventory = |p.inventory| := qabs_eq_abs _
    refine ⟨?_, ?_, ?_⟩
    · intro hflat
      simp only [Position.onFill, if_neg hq', if_neg hp', habs, if_pos hflat]
    · intro hfat hsame
      have h1 : ¬ |p.inventory| ≤ EPS := not_le.mpr hfat
      have hs : |signedQty side qty| = qty := abs_signedQty side qty hq
      simp only [Position.onFill, if_neg hq', if_neg hp', habs, if_neg h1,
        if_pos hsame, qdiv_eq_div, qabs_eq_abs, hs]
    · intro hfat hopp
      have h1 : ¬ |p.inventory| ≤ EPS := not_le.mpr hfat
      constructor
      · intro hclosed
        simp only [Position.onFill, if_neg hq', if_neg hp', habs, if_neg h1,
          if_neg hopp, qmin_eq_min, qabs_eq_abs, abs_signedQty side qty hq,
          if_pos hclosed, gt_iff_lt]
        split_ifs <;> rfl
      · intro hres
        have h2 : ¬ |p.inventory + signedQty side qty| ≤ EPS := not_le.mpr hres
        constructor
        · intro hflip
          simp only [Position.onFill, if_neg hq', if_neg hp', habs, if_neg h1,
            if_neg hopp, qmin_eq_min, qabs_eq_abs, abs_signedQty side qty hq,
            if_neg h2, if_pos hflip, gt_iff_lt]
          split_ifs <;> rfl
        · intro hnoflip
          simp only [Position.onFill, if_neg hq', if_neg hp', habs, if_neg h1,
            if_neg hopp, qmin_eq_min, qabs_eq_abs, abs_signedQty side qty hq,
            if_neg h2, if_neg hnoflip, gt_iff_lt]
          split_ifs <;> rfl
  · decide

/-- Witness for C5 at the flat-open case: buying 1 at 50 from a fresh
position opens long 1 at 50. -/
theorem C5_position_onFill_spec_witness :
    (Position.init "W").onFill .buy 1 50 = .ok ⟨"W", 1, 50, 0⟩ := by
  have h := (C5_position_onFill_spec.1 (Position.init "W") .buy 1 50
    (by decide) (by decide)).1 (by decide)
  simpa [signedQty] using h

/-! ## C1: reservation release on partial fills -/

/-- C1 (failing-input evaluation): the paper adapter calls
`risk.on_fill` without `remaining_qty`, so after the FIRST half-fill of the
accepted 1.0-qty buy the order is still open with remaining 0.5 (well above
epsilon), yet the risk manager's reservation for it is already gone and
`reserved` is 0 — the reservation is not reduced to the remaining open
quantity and is removed although remaining > ε. -/
theorem C1_partial_fill_drops_reservation :
    c1Step1.map (fun st => st.risk.reserved "S") = .ok 1 ∧
    c1Step1.map (fun st => st.risk.reservation_by_order_id)
      = .ok [("o1", ("S", .buy, 1))] ∧
    c1Step2.map (fun st => (kvGet st.orders "o1").map OrderRecord.remaining)
      = .ok (some (mkRat 1 2)) ∧
    c1Step2.map (fun st => (kvGet st.orders "o1").map OrderRecord.status)
      = .ok (some .opened) ∧
    EPS < mkRat 1 2 ∧
    c1Step2.map (fun st => st.risk.reserved "S") = .ok 0 ∧
    c1Step2.map (fun st => st.risk.reservation_by_order_id) = .ok [] ∧
    c1Step3.map (fun st => (kvGet st.orders "o1").map OrderRecord.status)
      = .ok (some .filled) ∧
    c1Step3.map (fun st => st.risk.inventory "S") = .ok 1 ∧
    c1Step3.map (fun st => st.risk.reserved "S") = .ok 0 := by
  refine ⟨by decide, by decide, by decide, by decide, by decide, by decide, by decide,
    by decide, by decide, by decide⟩

/-! ## C3: run assembly and the tick driver -/

/-- C3 (counterexample): in mode `paper_replay_l2`, `build_run` wires the
event journal, replay adapter, book adapter, strategy and execution — and
neither the tick driver nor the risk/inventory collector. -/
theorem C3_counterexample_no_tick_driver :
    buildComponents .paper_replay_l2 true []
      = .ok [.eventlogC, .mdReplayC, .orderBookC, .strategyC, .executionC] ∧
    ¬ CompTag.tickDriverC ∈
        [CompTag.eventlogC, .mdReplayC, .orderBookC, .strategyC, .executionC] ∧
    ¬ CompTag.riskCollectorC ∈
        [CompTag.eventlogC, .mdReplayC, .orderBookC, .strategyC, .executionC] := by
  refine ⟨by decide, by decide, by decide⟩

/-- C3 (amended): in mode `paper_replay_l2`, `build_run` wires the event
journal first, then replay adapter, book adapter, strategy and execution,
with any extra components appended last — the tick driver and risk
collector are not among them; and `TickDriverComponent`, on receiving
`run_started` while the engine runs, publishes exactly `max_ticks`
engine-tick events whose ticks are freshly allocated and monotone (+1 per
event), each with a freshly allocated sequence. -/
theorem C3_assembly_and_tick_driver :
    (∀ extras : List CompTag,
      buildComponents .paper_replay_l2 true extras
        = .ok ([.eventlogC, .mdReplayC, .orderBookC, .strategyC, .executionC] ++ extras)) ∧
    (∀ (maxTicks : Nat) (st : EngSt), st.is_running = true →
      ∃ evs st', tickDriverRun maxTicks st = .ok (evs, st') ∧
        evs.length = maxTicks ∧
        evs.map Prod.fst = List.range' (st.tick + 1) maxTicks ∧
        evs.map Prod.snd = List.range' (st.sequence + 1) maxTicks ∧
        st'.tick = st.tick + maxTicks ∧ st'.sequence = st.sequence + maxTicks ∧
        st'.is_running = true) := by
  constructor
  · intro extras
    rfl
  · intro maxTicks
    induction maxTicks with
    | zero =>
      intro st h
      exact ⟨[], st, rfl, rfl, rfl, rfl, rfl, rfl, h⟩
    | succ n ih =>
      intro st h
      have hstep : tickDriverEmitOne st
          = .ok ((st.tick + 1, st.sequence + 1),
                 ⟨st.run_id, st.tick + 1, st.sequence + 1, true⟩) := by
        unfold tickDriverEmitOne EngSt.nextTick EngSt.nextSequence
        rw [h]
        rfl
      obtain ⟨evs, st', hrun, hlen, hticks, hseqs, htick, hseq, hrunning⟩ :=
        ih ⟨st.run_id, st.tick + 1, st.sequence + 1, true⟩ rfl
      refine ⟨(st.tick + 1, st.sequence + 1) :: evs, st', ?_, ?_, ?_, ?_, ?_, ?_, hrunning⟩
      · show (do
            let e ← tickDriverEmitOne st
            let rest ← tickDriverRun n e.2
            Except.ok (e.1 :: rest.1, rest.2)) = _
        rw [hstep]
        show (do
            let rest ← tickDriverRun n (⟨st.run_id, st.tick + 1, st.sequence + 1, true⟩ : EngSt)
            Except.ok ((st.tick + 1, st.sequence + 1) :: rest.1, rest.2)) = _
        rw [hrun]
        rfl
      · simp [hlen]
      · simp only [List.map_cons, hticks]
        rw [List.range'_succ]
      · simp only [List.map_cons, hseqs]
        rw [List.range'_succ]
      · simp only [htick]; omega
      · simp only [hseq]; omega

/-- Witness for C3: instantiated at no extras and at three ticks from a
running engine at tick 0 / sequence 0. -/
theorem C3_assembly_and_tick_driver_witness :
    buildComponents .paper_replay_l2 true []
      = .ok ([.eventlogC, .mdReplayC, .orderBookC, .strategyC, .executionC] ++ []) ∧
    ∃ evs st', tickDriverRun 3 ⟨"r", 0, 0, true⟩ = .ok (evs, st') ∧ evs.length = 3 := by
  refine ⟨C3_assembly_and_tick_driver.1 [], ?_⟩
  obtain ⟨evs, st', h1, h2, -⟩ := C3_assembly_and_tick_driver.2 3 ⟨"r", 0, 0, true⟩ rfl
  exact ⟨evs, st', h1, h2⟩

/-! ## C9: JSONL replay datasource -/

/-- C9 (counterexample): the JSONL datasource does not accept a
`{price,size}` object row — `for p, sz in rows` unpacks the dict's keys and
`float("price")` raises a `ValueError` that cites no line number — while
the row parser the spec describes accepts it. -/
theorem C9_counterexample_object_row :
    codeIterate [.deltaLine (some "S") [.objRow 100 1] []]
      = .error (.noLine "could not convert string to float") ∧
    specParseRow (.objRow 100 1) = .ok ⟨100, 1⟩ := by
  refine ⟨by decide, by decide⟩

/-- Parsing a list of 2-tuple rows recovers exactly the level updates. -/
theorem codeParseRows_pairRows :
    ∀ l : List LevelUpdate,
      codeParseRows (l.map (fun u => Row.pairRow u.price u.size)) = .ok l
  | [] => rfl
  | u :: rest => by
    have ih := codeParseRows_pairRows rest
    show (do
        let x ← codeParseRow (Row.pairRow u.price u.size)
        let us ← codeParseRows (rest.map (fun u => Row.pairRow u.price u.size))
        Except.ok (x :: us)) = Except.ok (u :: rest)
    rw [ih]
    rfl

/-- C9 (amended): the datasource skips blank lines, fails on invalid JSON
with a parse error citing the 1-based line number, accepts 2-tuple rows
(yielding the corresponding level updates when the delta validates), and
fails on a `{price,size}` object row with a `ValueError` that does not cite
the line number. -/
theorem C9_jsonl_datasource_spec :
    (∀ n, codeParseLine n .blank = .ok none) ∧
    (∀ n, codeParseLine n .badJson = .error (.atLine n "invalid JSON")) ∧
    (∀ (n : Nat) (sym : String) (bu au : List LevelUpdate), sym ≠ "" →
      (∀ u ∈ bu ++ au, 0 < u.price ∧ 0 ≤ u.size) →
      codeParseLine n (.deltaLine (some sym)
          (bu.map (fun u => Row.pairRow u.price u.size))
          (au.map (fun u => Row.pairRow u.price u.size)))
        = .ok (some ⟨sym, bu, au⟩)) ∧
    (∀ (n : Nat) (sym : String) (p s : ℚ) (au : List Row), sym ≠ "" →
      codeParseLine n (.deltaLine (some sym) [.objRow p s] au)
        = .error (.noLine "could not convert string to float")) := by
  refine ⟨fun n => rfl, fun n => rfl, ?_, ?_⟩
  · intro n sym bu au hsym hvalid
    have hb := codeParseRows_pairRows bu
    have ha := codeParseRows_pairRows au
    simp only [codeParseLine, if_neg hsym]
    rw [hb, ha]
    show (do
        let d ← deltaValidate ⟨sym, bu, au⟩
        Except.ok (some d)) = Except.ok (some ⟨sym, bu, au⟩)
    unfold deltaValidate
    rw [if_neg hsym, if_pos hvalid]
    rfl
  · intro n sym p s au hsym
    simp only [codeParseLine, if_neg hsym]
    rfl

/-- Witness for C9 at concrete lines: blank line 7 skipped, bad JSON at
line 7 cites line 7, a tuple-row delta parses, an object row fails without
a line number. -/
theorem C9_jsonl_datasource_spec_witness :
    codeParseLine 7 .blank = .ok none ∧
    codeParseLine 7 .badJson = .error (.atLine 7 "invalid JSON") ∧
    codeParseLine 1 (.deltaLine (some "S") [.pairRow 100 1] [])
      = .ok (some ⟨"S", [⟨100, 1⟩], []⟩) ∧
    codeParseLine 2 (.deltaLine (some "S") [.objRow 100 1] [])
      = .error (.noLine "could not convert string to float") := by
  refine ⟨C9_jsonl_datasource_spec.1 7, C9_jsonl_datasource_spec.2.1 7, ?_,
    C9_jsonl_datasource_spec.2.2.2 2 "S" 100 1 [] (by decide)⟩
  have h := C9_jsonl_datasource_spec.2.2.1 1 "S" [⟨100, 1⟩] [] (by decide) (by decide)
  simpa using h

/-! ## C4: risk-manager order gating -/

/-- Helper: `validQty` is exactly the epsilon-positivity test. -/
theorem validQty_iff {q : ℚ} : validQty q = true ↔ EPS < q := by
  simp [validQty]

/-- The notional gate is false whenever every set cap admits the order. -/
theorem notionalGate_eq_false {limits : RiskLimits} {qty : ℚ} {price : Option ℚ}
    (hp : ∀ mon p, limits.max_order_notional = some mon → price = some p →
      qty * p ≤ mon + EPS) :
    notionalGate limits qty price = false := by
  unfold notionalGate
  rcases hmon : limits.max_order_notional with _ | mon
  · cases price <;> rfl
  · rcases hpr : price with _ | p
    · rfl
    · exact decide_eq_false (not_lt.mpr (hp mon p hmon hpr))

/-- The notional gate is true when a set cap is exceeded. -/
theorem notionalGate_eq_true {limits : RiskLimits} {qty : ℚ} {price : Option ℚ}
    {mon p : ℚ} (hmon : limits.max_order_notional = some mon) (hpr : price = some p)
    (hd : mon + EPS < qty * p) :
    notionalGate limits qty price = true := by
  unfold notionalGate
  rw [hmon, hpr]
  exact decide_eq_true hd

/-- C4: `check_new_order` performs its checks in source order — (a) finite
positive qty, (b) `qty ≤ max_order_qty + ε`, (c) price validity, then the
notional cap when a price is given and `max_order_notional` is set, and
(d) projected exposure within `max_abs_inventory + ε` — each failure
returning `ok = false` with its distinct reason code and leaving the risk
state unchanged; on success with a not-yet-reserved `order_id` it records
the reservation `(symbol, side, qty)` and adds `signed(side, qty)` to
`reserved[symbol]`, and otherwise changes nothing. -/
theorem C4_check_new_order_spec :
    ∀ (rs : RiskState) (symbol : String) (side : Side) (qty : ℚ) (price : Option ℚ)
      (order_id : Option String),
      ((rs.checkNewOrder symbol side qty price order_id).1.ok = false →
        (rs.checkNewOrder symbol side qty price order_id).2 = rs) ∧
      (qty ≤ EPS →
        rs.checkNewOrder symbol side qty price order_id
          = (⟨false, "qty_non_positive_or_invalid"⟩, rs)) ∧
      (EPS < qty → rs.limits.max_order_qty + EPS < qty →
        rs.checkNewOrder symbol side qty price order_id
          = (⟨false, "qty_exceeds_max_order_qty"⟩, rs)) ∧
      (EPS < qty → qty ≤ rs.limits.max_order_qty + EPS → validPrice price = false →
        rs.checkNewOrder symbol side qty price order_id
          = (⟨false, "invalid_price"⟩, rs)) ∧
      (∀ mon p, EPS < qty → qty ≤ rs.limits.max_order_qty + EPS →
        validPrice price = true →
        rs.limits.max_order_notional = some mon → price = some p →
        mon + EPS < qty * p →
        rs.checkNewOrder symbol side qty price order_id
          = (⟨false, "notional_exceeds_max_order_notional"⟩, rs)) ∧
      (EPS < qty → qty ≤ rs.limits.max_order_qty + EPS → validPrice price = true →
        (∀ mon p, rs.limits.max_order_notional = some mon → price = some p →
          qty * p ≤ mon + EPS) →
        rs.limits.max_abs_inventory + EPS <
          |rs.inventory symbol + rs.reserved symbol + signedQty side qty| →
        rs.checkNewOrder symbol side qty price order_id
          = (⟨false, "inventory_limit_breach"⟩, rs)) ∧
      (∀ oid, EPS < qty → qty ≤ rs.limits.max_order_qty + EPS → validPrice price = true →
        (∀ mon p, rs.limits.max_order_notional = some mon → price = some p →
          qty * p ≤ mon + EPS) →
        |rs.inventory symbol + rs.reserved symbol + signedQty side qty| ≤
          rs.limits.max_abs_inventory + EPS →
        order_id = some oid → kvGet rs.reservation_by_order_id oid = none →
        rs.checkNewOrder symbol side qty price order_id
          = (⟨true, "ok"⟩,
             { rs with
                 reservation_by_order_id :=
                   kvSet rs.reservation_by_order_id oid (symbol, side, qty),
                 reserved_by_symbol :=
                   kvSet rs.reserved_by_symbol symbol
                     (rs.reserved symbol + signedQty side qty) })) ∧
      (EPS < qty → qty ≤ rs.limits.max_order_qty + EPS → validPrice price = true →
        (∀ mon p, rs.limits.max_order_notional = some mon → price = some p →
          qty * p ≤ mon + EPS) →
        |rs.inventory symbol + rs.reserved symbol + signedQty side qty| ≤
          rs.limits.max_abs_inventory + EPS →
        (order_id = none ∨
          ∃ oid, order_id = some oid ∧ (kvGet rs.reservation_by_order_id oid).isSome) →
        rs.checkNewOrder symbol side qty price order_id = (⟨true, "ok"⟩, rs)) ∧
      ([("qty_non_positive_or_invalid" : String), "qty_exceeds_max_order_qty",
        "invalid_price", "notional_exceeds_max_order_notional",
        "inventory_limit_breach"].Nodup) := by
  intro rs symbol side qty price order_id
  have hq1 : ∀ h : qty ≤ EPS, ¬ (validQty qty = true) := fun h => by
    rw [validQty_iff]
    exact not_lt.mpr h
  have hq2 : ∀ h : EPS < qty, ¬ ¬ (validQty qty = true) := fun h =>
    not_not_intro (validQty_iff.mpr h)
  refine ⟨?unch, ?a, ?b, ?c, ?d, ?e, ?f, ?g, by decide⟩
  case a =>
    intro h
    unfold RiskState.checkNewOrder
    rw [if_pos (hq1 h)]
  case b =>
    intro h hb
    unfold RiskState.checkNewOrder
    rw [if_neg (hq2 h), if_pos hb]
  case c =>
    intro h hb hc
    unfold RiskState.checkNewOrder
    rw [if_neg (hq2 h), if_neg (not_lt.mpr hb),
      if_pos (show ¬ (validPrice price = true) by rw [hc]; simp)]
  case d =>
    intro mon p h hb hc hmon hp hd
    unfold RiskState.checkNewOrder
    rw [if_neg (hq2 h), if_neg (not_lt.mpr hb), if_neg (not_not_intro hc),
      notionalGate_eq_true hmon hp hd]
    rfl
  case e =>
    intro h hb hc hpass he
    unfold RiskState.checkNewOrder
    rw [if_neg (hq2 h), if_neg (not_lt.mpr hb), if_neg (not_not_intro hc),
      notionalGate_eq_false hpass]
    simp only [Bool.false_eq_true, if_false]
    rw [if_pos (show qabs (rs.inventory symbol + rs.reserved symbol + signedQty side qty)
          > rs.limits.max_abs_inventory + EPS by rw [qabs_eq_abs]; exact he)]
  case f =>
    intro oid h hb hc hpass hinv hoid hfresh
    unfold RiskState.checkNewOrder
    rw [if_neg (hq2 h), if_neg (not_lt.mpr hb), if_neg (not_not_intro hc),
      notionalGate_eq_false hpass]
    simp only [Bool.false_eq_true, if_false]
    rw [if_neg (show ¬ (qabs (rs.inventory symbol + rs.reserved symbol + signedQty side qty)
          > rs.limits.max_abs_inventory + EPS) by rw [qabs_eq_abs]; exact not_lt.mpr hinv)]
    rw [hoid]
    simp only [hfresh, Option.isNone_none, if_true]
  case g =>
    intro h hb hc hpass hinv hcase
    unfold RiskState.checkNewOrder
    rw [if_neg (hq2 h), if_neg (not_lt.mpr hb), if_neg (not_not_intro hc),
      notionalGate_eq_false hpass]
    simp only [Bool.false_eq_true, if_false]
    rw [if_neg (show ¬ (qabs (rs.inventory symbol + rs.reserved symbol + signedQty side qty)
          > rs.limits.max_abs_inventory + EPS) by rw [qabs_eq_abs]; exact not_lt.mpr hinv)]
    rcases hcase with hnone | ⟨oid, hoid, hsome⟩
    · rw [hnone]
    · rw [hoid]
      have : (kvGet rs.reservation_by_order_id oid).isNone = false := by
        rcases hk : kvGet rs.reservation_by_order_id oid with _ | v
        · rw [hk] at hsome
          simp at hsome
        · rfl
      simp only [this, Bool.false_eq_true, if_false]
  case unch =>
    intro hfail
    revert hfail
    simp only [RiskState.checkNewOrder]
    repeat' split
    all_goals intro hfail
    all_goals first
      | rfl
      | (exact absurd hfail (by simp))

/-- Witness for C4: a fresh manager with max_order_qty 1 rejects qty 10
with the right code and unchanged state, and accepts qty 1 buy with a
reservation. -/
theorem C4_check_new_order_spec_witness :
    (RiskState.init ⟨1, 100, none⟩).checkNewOrder "BTCUSDT" .buy 10 (some 100) (some "o")
      = (⟨false, "qty_exceeds_max_order_qty"⟩, RiskState.init ⟨1, 100, none⟩) ∧
    (RiskState.init ⟨1, 100, none⟩).checkNewOrder "BTCUSDT" .buy 1 (some 100) (some "o")
      = (⟨true, "ok"⟩,
         { RiskState.init ⟨1, 100, none⟩ with
             reservation_by_order_id := [("o", ("BTCUSDT", .buy, 1))],
             reserved_by_symbol := [("BTCUSDT", 1)] }) := by
  constructor
  · exact (C4_check_new_order_spec (RiskState.init ⟨1, 100, none⟩) "BTCUSDT" .buy 10
      (some 100) (some "o")).2.2.1 (by decide) (by decide)
  · have h := ((C4_check_new_order_spec (RiskState.init ⟨1, 100, none⟩) "BTCUSDT" .buy 1
      (some 100) (some "o")).2.2.2.2.2.2.1) "o" (by decide) (by decide) (by decide)
      (by intro mon p hmon; cases hmon) (by decide) rfl (by decide)
    simpa [RiskState.init, RiskState.reserved, kvGetD, kvGet, kvSet, signedQty] using h

/-! ## C10: fill decisions keep the error branches unreachable -/

/-- Soundness of both reference fill models: an executable decision always
names a positive fill price and a fill quantity strictly above epsilon and
at most `remaining + ε`, and is only produced for open orders. -/
theorem fullFillDecide_sound (order : OrderRecord) (bbo : BBO)
    (h : (fullFillDecide order bbo).executable = true) :
    order.status = .opened ∧
    ∃ fp fq, fullFillDecide order bbo = ⟨true, some fp, some fq⟩ ∧
      0 < fp ∧ EPS < fq ∧ fq ≤ order.remaining + EPS := by
  unfold fullFillDecide at h ⊢
  by_cases h1 : order.status ≠ .opened
  · rw [if_pos h1] at h
    exact absurd h (by simp [FillDecision.no])
  rw [if_neg h1] at h ⊢
  rcases hp : order.price with _ | p
  · try simp only [hp] at h ⊢
    exact absurd h (by simp [FillDecision.no])
  try simp only [hp] at h ⊢
  try dsimp only at h ⊢
  by_cases h2 : ¬ bbo.bid_price > 0 ∨ ¬ bbo.ask_price > 0
  · rw [if_pos h2] at h
    exact absurd h (by simp [FillDecision.no])
  rw [if_neg h2] at h ⊢
  push_neg at h2
  by_cases h3 : order.remaining ≤ EPS
  · rw [if_pos h3] at h
    exact absurd h (by simp [FillDecision.no])
  rw [if_neg h3] at h ⊢
  have hEPS := EPS_pos
  rcases hside : order.side with _ | _
  all_goals try simp only [hside] at h ⊢
  all_goals try dsimp only at h ⊢
  · by_cases h4 : p + EPS ≥ bbo.ask_price
    · rw [if_pos h4] at h ⊢
      exact ⟨not_not.mp h1, bbo.ask_price, order.remaining, rfl, h2.2,
        not_le.mp h3, by linarith⟩
    · rw [if_neg h4] at h
      exact absurd h (by simp [FillDecision.no])
  · by_cases h4 : p - EPS ≤ bbo.bid_price
    · rw [if_pos h4] at h ⊢
      exact ⟨not_not.mp h1, bbo.bid_price, order.remaining, rfl, h2.1,
        not_le.mp h3, by linarith⟩
    · rw [if_neg h4] at h
      exact absurd h (by simp [FillDecision.no])

theorem cappedFillDecide_sound (order : OrderRecord) (bbo : BBO)
    (h : (cappedFillDecide order bbo).executable = true) :
    order.status = .opened ∧
    ∃ fp fq, cappedFillDecide order bbo = ⟨true, some fp, some fq⟩ ∧
      0 < fp ∧ EPS < fq ∧ fq ≤ order.remaining + EPS := by
  unfold cappedFillDecide at h ⊢
  by_cases h1 : order.status ≠ .opened
  · rw [if_pos h1] at h
    exact absurd h (by simp [FillDecision.no])
  rw [if_neg h1] at h ⊢
  rcases hp : order.price with _ | p
  · try simp only [hp] at h ⊢
    exact absurd h (by simp [FillDecision.no])
  try simp only [hp] at h ⊢
  try dsimp only at h ⊢
  by_cases h2 : ¬ bbo.bid_price > 0 ∨ ¬ bbo.ask_price > 0
  · rw [if_pos h2] at h
    exact absurd h (by simp [FillDecision.no])
  rw [if_neg h2] at h ⊢
  push_neg at h2
  by_cases h3 : order.remaining ≤ EPS
  · rw [if_pos h3] at h
    exact absurd h (by simp [FillDecision.no])
  rw [if_neg h3] at h ⊢
  have hEPS := EPS_pos
  rcases hside : order.side with _ | _
  all_goals try simp only [hside] at h ⊢
  all_goals try dsimp only at h ⊢
  · by_cases h4 : p + EPS ≥ bbo.ask_price ∧ bbo.ask_size > EPS
    · rw [if_pos h4] at h ⊢
      refine ⟨not_not.mp h1, bbo.ask_price, qmin order.remaining bbo.ask_size, rfl,
        h2.2, ?_, ?_⟩
      · rw [qmin_eq_min]
        exact lt_min (not_le.mp h3) h4.2
      · rw [qmin_eq_min]
        have := min_le_left order.remaining bbo.ask_size
        linarith
    · rw [if_neg h4] at h
      exact absurd h (by simp [FillDecision.no])
  · by_cases h4 : p - EPS ≤ bbo.bid_price ∧ bbo.bid_size > EPS
    · rw [if_pos h4] at h ⊢
      refine ⟨not_not.mp h1, bbo.bid_price, qmin order.remaining bbo.bid_size, rfl,
        h2.1, ?_, ?_⟩
      · rw [qmin_eq_min]
        exact lt_min (not_le.mp h3) h4.2
      · rw [qmin_eq_min]
        have := min_le_left order.remaining bbo.bid_size
        linarith
    · rw [if_neg h4] at h
      exact absurd h (by simp [FillDecision.no])

theorem decideFill_sound :
    ∀ (fm : FillModelKind) (order : OrderRecord) (bbo : BBO),
      (decideFill fm order bbo).executable = true →
      order.status = .opened ∧
      ∃ fp fq, decideFill fm order bbo = ⟨true, some fp, some fq⟩ ∧
        0 < fp ∧ EPS < fq ∧ fq ≤ order.remaining + EPS := by
  intro fm order bbo h
  cases fm
  · exact fullFillDecide_sound order bbo h
  · exact cappedFillDecide_sound order bbo h

/-- `apply_fill` succeeds for a positive fill within `remaining + ε`. -/
theorem applyFill_ok (r : OrderRecord) (q : ℚ) (h1 : 0 < q)
    (h2 : q ≤ r.remaining + EPS) : ∃ r', r.applyFill q = .ok r' := by
  simp only [OrderRecord.applyFill]
  split_ifs <;> first | exact ⟨_, rfl⟩ | (exfalso; linarith)

/-- `Position.on_fill` succeeds for a positive quantity and price. -/
theorem positionOnFill_ok (p : Position) (side : Side) (qty price : ℚ)
    (h1 : 0 < qty) (h2 : 0 < price) : ∃ p', p.onFill side qty price = .ok p' := by
  simp only [Position.onFill]
  split_ifs <;> first | exact ⟨_, rfl⟩ | (exfalso; linarith)

/-- `RiskManager.on_fill` succeeds for an epsilon-positive quantity. -/
theorem riskOnFill_ok (rs : RiskState) (symbol : String) (side : Side) (qty : ℚ)
    (oid : Option String) (rq : Option ℚ) (h : EPS < qty) :
    ∃ rs', rs.onFill symbol side qty oid rq = .ok rs' := by
  simp only [RiskState.onFill]
  rw [if_neg (not_not_intro (validQty_iff.mpr h))]
  repeat' split
  all_goals exact ⟨_, rfl⟩

/-- C10: for either reference fill model, every executable decision
satisfies `ε < fill_qty ≤ remaining + ε` with a positive fill price, so the
`ValueError` branches of `apply_fill`, `Position.on_fill` and
`RiskManager.on_fill` are unreachable and `_try_fill` never raises. -/
theorem C10_fill_models_safe :
    (∀ (fm : FillModelKind) (order : OrderRecord) (bbo : BBO),
      (decideFill fm order bbo).executable = true →
      ∃ fp fq, decideFill fm order bbo = ⟨true, some fp, some fq⟩ ∧
        0 < fp ∧ EPS < fq ∧ fq ≤ order.remaining + EPS) ∧
    (∀ (fm : FillModelKind) (st : AdapterState) (oid : String),
      ∃ st', st.tryFill fm oid = .ok st') := by
  constructor
  · intro fm order bbo h
    exact (decideFill_sound fm order bbo h).2
  · intro fm st oid
    unfold AdapterState.tryFill
    rcases hord : kvGet st.orders oid with _ | order
    · exact ⟨st, rfl⟩
    simp only []
    split
    · exact ⟨st, rfl⟩
    next h1 =>
      rcases hbbo : kvGet st.bbo_by_symbol order.symbol with _ | bbo
      · exact ⟨st, rfl⟩
      simp only []
      by_cases hex : (decideFill fm order bbo).executable = true
      · obtain ⟨-, fp, fq, heq, hfp, hfq1, hfq2⟩ := decideFill_sound fm order bbo hex
        have hq0 : 0 < fq := lt_trans EPS_pos hfq1
        obtain ⟨r', hr'⟩ := applyFill_ok order fq hq0 hfq2
        obtain ⟨p', hp'⟩ := positionOnFill_ok
          (kvGetD st.positions order.symbol (Position.init order.symbol))
          order.side fq fp hq0 hfp
        obtain ⟨rs', hrs'⟩ := riskOnFill_ok st.risk order.symbol order.side fq
          (some order.order_id) none hfq1
        simp only [heq, if_neg (not_le.mpr hq0), hr', hp', hrs']
        exact ⟨_, rfl⟩
      · rw [if_pos (by simpa using hex)]
        exact ⟨st, rfl⟩

/-- Witness for C10: a marketable buy against a 100/101 book is executable
with the guaranteed bounds, and `tryFill` returns ok on a fresh adapter. -/
theorem C10_fill_models_safe_witness :
    (∃ fp fq, decideFill .full ⟨"S", "o", .buy, some 101, 1, 1, .opened⟩
        ⟨"S", 100, 1, 101, 2⟩ = ⟨true, some fp, some fq⟩ ∧
      0 < fp ∧ EPS < fq ∧ fq ≤ (1 : ℚ) + EPS) ∧
    (∃ st', (AdapterState.init ⟨1, 1, none⟩).tryFill .full "o" = .ok st') := by
  exact ⟨C10_fill_models_safe.1 .full ⟨"S", "o", .buy, some 101, 1, 1, .opened⟩
    ⟨"S", 100, 1, 101, 2⟩ (by decide), C10_fill_models_safe.2 .full (AdapterState.init ⟨1, 1, none⟩) "o"⟩

/-! ## C7: fixed-spread strategy invariants -/

/-- `quoteSide` preserves "pending implies active" on its side. -/
theorem quoteSide_inv (cfg : FixedSpreadConfig) (run_id : String) (tick : ℤ)
    (side : Side) (quote size : ℚ) (activeId : Option OrdId) (activePrice : Option ℚ)
    (pending : Option (ℚ × ℚ))
    (hinv : pending.isSome → activeId.isSome) :
    ((quoteSide cfg run_id tick side quote size activeId activePrice pending).2.2.1).isSome →
      ((quoteSide cfg run_id tick side quote size activeId activePrice pending).1).isSome := by
  unfold quoteSide
  by_cases hsz : size > 0
  · rw [if_pos hsz]
    dsimp only
    by_cases hneed : activeId.isNone = true ∨ activePrice.isNone = true ∨
        ¬ samePrice quote activePrice = true
    · rw [if_pos hneed]
      rcases pending with _ | pq
      · rcases hact : activeId with _ | aid
        all_goals try simp only [hact]
        all_goals try dsimp only
        · intro _
          rfl
        · intro _
          rfl
      · dsimp only
        intro _
        exact hinv rfl
    · rw [if_neg hneed]
      intro hs
      exact hinv hs
  · rw [if_neg hsz]
    intro hs
    exact hinv hs

/-- One strategy dispatch preserves the asserted invariant. -/
theorem stratStep_inv (cfg : FixedSpreadConfig) (run_id : String) (s : StratState)
    (ev : StratEvent) (hinv : StratInv s) : StratInv (stratStep cfg run_id s ev).1 := by
  rcases ev with ⟨tick, e⟩ | ⟨symbol, oid, side, q⟩ | ⟨tick, symbol, oid⟩
  · show StratInv (stratOnBBO cfg run_id tick s e).1
    unfold stratOnBBO
    split_ifs with h1 h2 h3
    · exact hinv
    · exact hinv
    · exact hinv
    · dsimp only
      split_ifs with h4
      · exact hinv
      all_goals exact ⟨quoteSide_inv cfg run_id tick .buy _ _ _ _ _ hinv.1,
        quoteSide_inv cfg run_id tick .sell _ _ _ _ _ hinv.2⟩
  · show StratInv (stratOnFill cfg s symbol oid side q)
    unfold stratOnFill
    dsimp only
    split_ifs
    · exact hinv
    all_goals refine ⟨?_, ?_⟩
    all_goals first
      | exact hinv.1
      | exact hinv.2
      | (intro hx; simp at hx)
  · show StratInv (stratOnCanceled cfg run_id tick s symbol oid).1
    unfold stratOnCanceled
    by_cases h1 : symbol ≠ cfg.symbol
    · rw [if_pos h1]
      exact hinv
    rw [if_neg h1]
    try dsimp only
    by_cases hb : s.active_bid_id = some oid
    · rw [if_pos hb]
      rcases hpb : s.pending_bid with _ | pq
      · try rw [hpb]
        try dsimp only
        by_cases ha : s.active_ask_id = some oid
        · rw [if_pos ha]
          rcases hpa : s.pending_ask with _ | pq2
          · try rw [hpa]
            try dsimp only
            constructor <;> first
              | exact hinv.1
              | exact hinv.2
              | (intro hx; simp_all)
          · try rw [hpa]
            try dsimp only
            constructor <;> first
              | exact hinv.1
              | exact hinv.2
              | (intro hx; simp_all)
        · rw [if_neg ha]
          constructor <;> first
            | exact hinv.1
            | exact hinv.2
            | (intro hx; simp_all)
      · try rw [hpb]
        try dsimp only
        by_cases ha : s.active_ask_id = some oid
        · rw [if_pos ha]
          rcases hpa : s.pending_ask with _ | pq2
          · try rw [hpa]
            try dsimp only
            constructor <;> first
              | exact hinv.1
              | exact hinv.2
              | (intro hx; simp_all)
          · try rw [hpa]
            try dsimp only
            constructor <;> first
              | exact hinv.1
              | exact hinv.2
              | (intro hx; simp_all)
        · rw [if_neg ha]
          constructor <;> first
            | exact hinv.1
            | exact hinv.2
            | (intro hx; simp_all)
    · rw [if_neg hb]
      by_cases ha : s.active_ask_id = some oid
      · rw [if_pos ha]
        rcases hpa : s.pending_ask with _ | pq2
        · try rw [hpa]
          try dsimp only
          constructor <;> first
            | exact hinv.1
            | exact hinv.2
            | (intro hx; simp_all)
        · try rw [hpa]
          try dsimp only
          constructor <;> first
            | exact hinv.1
            | exact hinv.2
            | (intro hx; simp_all)
      · rw [if_neg ha]
        exact hinv

/-- C7: after every fixed-spread handler invocation along any trace from
the constructor state, at most one active order id is tracked per side (the
state holds a single optional id per side) and a pending replacement on a
side exists only when that side also has an active order. -/
theorem C7_strategy_invariant (cfg : FixedSpreadConfig) (run_id : String)
    (trace : List StratEvent) : StratInv (stratRun cfg run_id trace) := by
  have hinit : StratInv StratState.init := ⟨by simp [StratState.init], by simp [StratState.init]⟩
  rw [stratRun]
  have hfold : ∀ (l : List StratEvent) (s : StratState), StratInv s →
      StratInv (l.foldl (fun s ev => (stratStep cfg run_id s ev).1) s) := by
    intro l
    induction l with
    | nil => intro s hs; exact hs
    | cons ev rest ih =>
      intro s hs
      exact ih _ (stratStep_inv cfg run_id s ev hs)
  exact hfold trace _ hinit

/-- Witness for C7 at a concrete two-event trace. -/
theorem C7_strategy_invariant_witness :
    StratInv (stratRun ⟨"S", 1, 1, 10, 0, 0, 1⟩ "r"
      [.bboEv 1 ⟨"S", 100, 1, 101, 1⟩, .canceledEv 2 "S" ⟨"r", 1, .buy, 99, 1⟩]) :=
  C7_strategy_invariant ⟨"S", 1, 1, 10, 0, 0, 1⟩ "r"
    [.bboEv 1 ⟨"S", 100, 1, 101, 1⟩, .canceledEv 2 "S" ⟨"r", 1, .buy, 99, 1⟩]

/-! ## C8: the order-book adapter never emits duplicate consecutive BBOs -/

theorem kvGet_some_mem {K α : Type} [DecidableEq K] :
    ∀ {m : List (K × α)} {k : K} {v : α}, kvGet m k = some v → (k, v) ∈ m := by
  intro m
  induction m with
  | nil =>
    intro k v h
    simp [kvGet] at h
  | cons kv rest ih =>
    intro k v h
    unfold kvGet at h
    split at h
    · rcases h with ⟨rfl⟩
      rcases kv with ⟨k', v'⟩
      simp_all
    · exact List.mem_cons_of_mem _ (ih h)

theorem kvGet_isSome_of_mem_keys {K α : Type} [DecidableEq K] :
    ∀ {m : List (K × α)} {k : K}, k ∈ m.map Prod.fst → ∃ v, kvGet m k = some v := by
  intro m
  induction m with
  | nil =>
    intro k h
    simp at h
  | cons kv rest ih =>
    intro k h
    unfold kvGet
    split
    · exact ⟨kv.2, rfl⟩
    next hne =>
      rcases List.mem_map.mp h with ⟨⟨a, b⟩, hmem, hfst⟩
      rcases List.mem_cons.mp hmem with heq | hmem'
      · exfalso
        apply hne
        rw [heq] at hfst
        exact hfst
      · exact ih (List.mem_map.mpr ⟨(a, b), hmem', hfst⟩)

theorem mem_kvSet {K α : Type} [DecidableEq K] :
    ∀ {m : List (K × α)} {k : K} {v : α} {a : K} {b : α},
      (a, b) ∈ kvSet m k v → (a, b) ∈ m ∨ (a = k ∧ b = v) := by
  intro m
  induction m with
  | nil =>
    intro k v a b h
    simp [kvSet] at h
    exact Or.inr h
  | cons kv rest ih =>
    intro k v a b h
    unfold kvSet at h
    split at h
    · rcases List.mem_cons.mp h with heq | hmem
      · right
        simpa using heq
      · exact Or.inl (List.mem_cons_of_mem _ hmem)
    · rcases List.mem_cons.mp h with heq | hmem
      · exact Or.inl (heq ▸ List.mem_cons_self _ _)
      · rcases ih hmem with h1 | h2
        · exact Or.inl (List.mem_cons_of_mem _ h1)
        · exact Or.inr h2

theorem mem_kvErase {K α : Type} [DecidableEq K] :
    ∀ {m : List (K × α)} {k : K} {a : K} {b : α},
      (a, b) ∈ kvErase m k → (a, b) ∈ m := by
  intro m
  induction m with
  | nil =>
    intro k a b h
    simp [kvErase] at h
  | cons kv rest ih =>
    intro k a b h
    unfold kvErase at h
    split at h
    · exact List.mem_cons_of_mem _ h
    · rcases List.mem_cons.mp h with heq | hmem
      · exact heq ▸ List.mem_cons_self _ _
      · exact List.mem_cons_of_mem _ (ih hmem)

theorem mem_applyMap {m : List (ℚ × ℚ)} {price size p s : ℚ}
    (h : (p, s) ∈ applyMap m price size) :
    (p, s) ∈ m ∨ (p = price ∧ s = size ∧ size ≠ 0) := by
  unfold applyMap at h
  split at h
  · exact Or.inl (mem_kvErase h)
  next hsz =>
    rcases mem_kvSet h with h1 | h2
    · exact Or.inl h1
    · exact Or.inr ⟨h2.1, h2.2, hsz⟩

theorem qmaxList_mem : ∀ {l : List ℚ} {m : ℚ}, qmaxList l = some m → m ∈ l := by
  have haux : ∀ (l : List ℚ) (acc : Option ℚ) (m : ℚ),
      l.foldl (fun acc x => match acc with
        | none => some x
        | some a => some (if a ≤ x then x else a)) acc = some m →
      acc = some m ∨ m ∈ l := by
    intro l
    induction l with
    | nil =>
      intro acc m h
      exact Or.inl h
    | cons x rest ih =>
      intro acc m h
      rcases ih _ m h with hstep | hmem
      · rcases acc with _ | a
        · right
          have hx : some x = some m := hstep
          injection hx with hx'
          rw [← hx']
          exact List.mem_cons_self _ _
        · have ha : some (if a ≤ x then x else a) = some m := hstep
          injection ha with ha'
          by_cases hle : a ≤ x
          · right
            rw [if_pos hle] at ha'
            rw [← ha']
            exact List.mem_cons_self _ _
          · left
            rw [if_neg hle] at ha'
            rw [ha']
      · right
        exact List.mem_cons_of_mem _ hmem
  intro l m h
  rcases haux l none m h with h1 | h2
  · cases h1
  · exact h2

theorem qminList_mem : ∀ {l : List ℚ} {m : ℚ}, qminList l = some m → m ∈ l := by
  have haux : ∀ (l : List ℚ) (acc : Option ℚ) (m : ℚ),
      l.foldl (fun acc x => match acc with
        | none => some x
        | some a => some (if x ≤ a then x else a)) acc = some m →
      acc = some m ∨ m ∈ l := by
    intro l
    induction l with
    | nil =>
      intro acc m h
      exact Or.inl h
    | cons x rest ih =>
      intro acc m h
      rcases ih _ m h with hstep | hmem
      · rcases acc with _ | a
        · right
          have hx : some x = some m := hstep
          injection hx with hx'
          rw [← hx']
          exact List.mem_cons_self _ _
        · have ha : some (if x ≤ a then x else a) = some m := hstep
          injection ha with ha'
          by_cases hle : x ≤ a
          · right
            rw [if_pos hle] at ha'
            rw [← ha']
            exact List.mem_cons_self _ _
          · left
            rw [if_neg hle] at ha'
            rw [ha']
      · right
        exact List.mem_cons_of_mem _ hmem
  intro l m h
  rcases haux l none m h with h1 | h2
  · cases h1
  · exact h2

/-- `apply_level_update` keeps the book well-formed. -/
theorem applyLevelUpdate_inv {b : Book} {u : L2Ev} {b' : Book}
    (hinv : BookInv b) (h : b.applyLevelUpdate u = .ok b') :
    BookInv b' ∧ b'.symbol = b.symbol := by
  unfold Book.applyLevelUpdate at h
  split at h
  · cases h
  split at h
  · cases h
  next hpos =>
  split at h
  · cases h
  next hsz =>
  have hpos' : 0 < u.price := lt_of_not_le (fun hle => hpos (by linarith))
  split at h
  · rcases h with ⟨rfl⟩
    refine ⟨⟨?_, hinv.2.1, rfl, hinv.2.2.2⟩, rfl⟩
    intro p s hmem
    rcases mem_applyMap hmem with h1 | ⟨rfl, rfl, hne⟩
    · exact hinv.1 p s h1
    · exact ⟨hpos', lt_of_le_of_ne (not_lt.mp (fun hlt => hsz hlt)) (Ne.symm hne)⟩
  · rcases h with ⟨rfl⟩
    refine ⟨⟨hinv.1, ?_, hinv.2.2.1, rfl⟩, rfl⟩
    intro p s hmem
    rcases mem_applyMap hmem with h1 | ⟨rfl, rfl, hne⟩
    · exact hinv.2.1 p s h1
    · exact ⟨hpos', lt_of_le_of_ne (not_lt.mp (fun hlt => hsz hlt)) (Ne.symm hne)⟩

/-- The top-of-book tuple of a well-formed book is valid. -/
theorem best_tupleValid {b : Book} (hinv : BookInv b) :
    tupleValid (b.best.bid_price, b.best.bid_size, b.best.ask_price, b.best.ask_size) := by
  obtain ⟨hb, ha, hbb, hba⟩ := hinv
  refine ⟨?_, ?_, ?_, ?_, ?_, ?_⟩
  · intro p hp
    have hp' : b.best_bid = some p := hp
    rw [hbb] at hp'
    rcases List.mem_map.mp (qmaxList_mem hp') with ⟨⟨q, s⟩, hmem, hq⟩
    exact lt_of_lt_of_eq (hb q s hmem).1 hq
  · intro s hs
    have hs' : b.best_bid.bind (fun p => kvGet b.bids p) = some s := hs
    rcases hopt : b.best_bid with _ | p
    · rw [hopt] at hs'
      cases hs'
    · rw [hopt] at hs'
      have hs'' : kvGet b.bids p = some s := hs'
      exact (hb p s (kvGet_some_mem hs'')).2
  · intro p hp
    have hp' : b.best_ask = some p := hp
    rw [hba] at hp'
    rcases List.mem_map.mp (qminList_mem hp') with ⟨⟨q, s⟩, hmem, hq⟩
    exact lt_of_lt_of_eq (ha q s hmem).1 hq
  · intro s hs
    have hs' : b.best_ask.bind (fun p => kvGet b.asks p) = some s := hs
    rcases hopt : b.best_ask with _ | p
    · rw [hopt] at hs'
      cases hs'
    · rw [hopt] at hs'
      have hs'' : kvGet b.asks p = some s := hs'
      exact (ha p s (kvGet_some_mem hs'')).2
  · constructor
    · intro hp
      have hp' : b.best_bid = none := hp
      show b.best_bid.bind (fun p => kvGet b.bids p) = none
      rw [hp']
      rfl
    · intro hs
      have hs' : b.best_bid.bind (fun p => kvGet b.bids p) = none := hs
      show b.best_bid = none
      rcases hopt : b.best_bid with _ | p
      · rfl
      · exfalso
        rw [hopt] at hs'
        have hs'' : kvGet b.bids p = none := hs'
        rw [hbb] at hopt
        obtain ⟨v, hv⟩ := kvGet_isSome_of_mem_keys (qmaxList_mem hopt)
        rw [hv] at hs''
        cases hs''
  · constructor
    · intro hp
      have hp' : b.best_ask = none := hp
      show b.best_ask.bind (fun p => kvGet b.asks p) = none
      rw [hp']
      rfl
    · intro hs
      have hs' : b.best_ask.bind (fun p => kvGet b.asks p) = none := hs
      show b.best_ask = none
      rcases hopt : b.best_ask with _ | p
      · rfl
      · exfalso
        rw [hopt] at hs'
        have hs'' : kvGet b.asks p = none := hs'
        rw [hba] at hopt
        obtain ⟨v, hv⟩ := kvGet_isSome_of_mem_keys (qminList_mem hopt)
        rw [hv] at hs''
        cases hs''

/-- Positive-or-absent option values are determined by their zero-default. -/
theorem optPos_getD_inj {a b : Option ℚ}
    (ha : ∀ p, a = some p → 0 < p) (hb : ∀ p, b = some p → 0 < p)
    (h : a.getD 0 = b.getD 0) : a = b := by
  rcases a with _ | x <;> rcases b with _ | y
  · rfl
  · exfalso
    have := hb y rfl
    simp at h
    linarith [h ▸ this]
  · exfalso
    have := ha x rfl
    simp at h
    linarith [h ▸ this]
  · simp at h
    rw [h]

/-- On valid tuples, the emitted event determines the internal tuple. -/
theorem emitOf_inj {symbol : String} {t1 t2 : BestTuple}
    (h1 : tupleValid t1) (h2 : tupleValid t2)
    (h : bboTuple (emitOf symbol t1) = bboTuple (emitOf symbol t2)) : t1 = t2 := by
  obtain ⟨a1, b1, c1, d1⟩ := t1
  obtain ⟨a2, b2, c2, d2⟩ := t2
  obtain ⟨p1, q1, r1, s1, -, -⟩ := h1
  obtain ⟨p2, q2, r2, s2, -, -⟩ := h2
  simp only [bboTuple, emitOf, Prod.mk.injEq] at h
  obtain ⟨e1, e2, e3, e4⟩ := h
  simp only [Prod.mk.injEq]
  exact ⟨optPos_getD_inj p1 p2 e1, optPos_getD_inj q1 q2 e2,
    optPos_getD_inj r1 r2 e3, optPos_getD_inj s1 s2 e4⟩

/-- `tupleEmit` is injective on valid tuples. -/
theorem tupleEmit_inj {t1 t2 : BestTuple}
    (h1 : tupleValid t1) (h2 : tupleValid t2)
    (h : tupleEmit t1 = tupleEmit t2) : t1 = t2 :=
  @emitOf_inj "" t1 t2 h1 h2 h

/-- Case analysis of a successful `_on_l2` dispatch. -/
theorem onL2_spec {st : ObState} {sequence : Nat} {e : L2Ev}
    {st2 : ObState} {seq2 : Nat} {em : Option (BBO × Nat)}
    (h : st.onL2 sequence e = .ok (st2, seq2, em)) :
    (st2 = st ∧ seq2 = sequence ∧ em = none) ∨
    (∃ b', st.book.applyLevelUpdate e = .ok b' ∧
      ((st.last_best = some (bestTupleOf b') ∧ st2 = ⟨b', st.last_best⟩ ∧
        seq2 = sequence ∧ em = none) ∨
       (st.last_best ≠ some (bestTupleOf b') ∧ st2 = ⟨b', some (bestTupleOf b')⟩ ∧
        seq2 = sequence + 1 ∧
        em = some (emitOf e.symbol (bestTupleOf b'), sequence + 1)))) := by
  unfold ObState.onL2 at h
  split at h
  · left
    simp only [Except.ok.injEq, Prod.mk.injEq] at h
    exact ⟨h.1.symm, h.2.1.symm, h.2.2.symm⟩
  · rcases happ : st.book.applyLevelUpdate e with err | b'
    · rw [happ] at h
      replace h : (Except.error err : Except String (ObState × Nat × Option (BBO × Nat))) =
          .ok (st2, seq2, em) := h
      cases h
    · rw [happ] at h
      replace h : (if st.last_best = some (bestTupleOf b') then
            (Except.ok ((⟨b', st.last_best⟩ : ObState), sequence,
              (none : Option (BBO × Nat))) : Except String (ObState × Nat × Option (BBO × Nat)))
          else
            Except.ok (⟨b', some (bestTupleOf b')⟩, sequence + 1,
              some (emitOf e.symbol (bestTupleOf b'), sequence + 1))) =
          .ok (st2, seq2, em) := h
      right
      refine ⟨b', rfl, ?_⟩
      by_cases hlast : st.last_best = some (bestTupleOf b')
      · rw [if_pos hlast] at h
        simp only [Except.ok.injEq, Prod.mk.injEq] at h
        exact Or.inl ⟨hlast, h.1.symm, h.2.1.symm, h.2.2.symm⟩
      · rw [if_neg hlast] at h
        simp only [Except.ok.injEq, Prod.mk.injEq] at h
        exact Or.inr ⟨hlast, h.1.symm, h.2.1.symm, h.2.2.symm⟩

/-- Main induction for the order-book component run: the book stays
well-formed, every remembered tuple is valid, the emission list never has
two consecutive identical tuples, and its first emitted tuple differs from
any valid tuple remembered at the start. -/
theorem obRun_chain : ∀ (evs : List L2Ev) {st : ObState} {sequence : Nat}
    {st2 : ObState} {seq2 : Nat} {em : List (BBO × Nat)},
    BookInv st.book → (∀ t, st.last_best = some t → tupleValid t) →
    obRun st sequence evs = .ok (st2, seq2, em) →
    BookInv st2.book ∧ (∀ t, st2.last_best = some t → tupleValid t) ∧
    List.Chain' (fun a b => bboTuple a.1 ≠ bboTuple b.1) em ∧
    (∀ b bs, em = b :: bs → ∀ t0, st.last_best = some t0 → tupleValid t0 →
      bboTuple b.1 ≠ tupleEmit t0) := by
  intro evs
  induction evs with
  | nil =>
    intro st sequence st2 seq2 em hbk hlb h
    replace h : (Except.ok (st, sequence, ([] : List (BBO × Nat))) :
        Except String (ObState × Nat × List (BBO × Nat))) = .ok (st2, seq2, em) := h
    simp only [Except.ok.injEq, Prod.mk.injEq] at h
    obtain ⟨h1, h2, h3⟩ := h
    subst h1
    subst h3
    refine ⟨hbk, hlb, List.chain'_nil, ?_⟩
    intro b bs hc
    cases hc
  | cons e rest ih =>
    intro st sequence st2 seq2 em hbk hlb h
    unfold obRun at h
    rcases h1 : st.onL2 sequence e with err | r
    · rw [h1] at h
      replace h : (Except.error err : Except String (ObState × Nat × List (BBO × Nat))) =
          .ok (st2, seq2, em) := h
      cases h
    · rcases r with ⟨stm, seqm, e0⟩
      rw [h1] at h
      rcases e0 with _ | b0
      · replace h : Except.bind (obRun stm seqm rest) (fun r' =>
            (Except.ok (r'.1, r'.2.1, r'.2.2) :
              Except String (ObState × Nat × List (BBO × Nat)))) = .ok (st2, seq2, em) := h
        rcases h2 : obRun stm seqm rest with err | r'
        · rw [h2] at h
          replace h : (Except.error err : Except String (ObState × Nat × List (BBO × Nat))) =
              .ok (st2, seq2, em) := h
          cases h
        · rcases r' with ⟨st', seq', em'⟩
          rw [h2] at h
          replace h : (Except.ok (st', seq', em') :
              Except String (ObState × Nat × List (BBO × Nat))) = .ok (st2, seq2, em) := h
          simp only [Except.ok.injEq, Prod.mk.injEq] at h
          obtain ⟨hst, hseq, hem⟩ := h
          subst hst
          subst hem
          rcases onL2_spec h1 with ⟨hsteq, hseqeq, he0⟩ | ⟨b', happ, hcase⟩
          · subst hsteq
            exact ih hbk hlb h2
          · obtain ⟨hbk', hsym⟩ := applyLevelUpdate_inv hbk happ
            rcases hcase with ⟨hlast, hsteq, hseqeq, he0⟩ | ⟨hlast, hsteq, hseqeq, he0⟩
            · subst hsteq
              have hlb' : ∀ t, (⟨b', st.last_best⟩ : ObState).last_best = some t →
                  tupleValid t := by
                intro t ht
                exact hlb t ht
              obtain ⟨ib, il, ic, ihd⟩ := ih hbk' hlb' h2
              refine ⟨ib, il, ic, ?_⟩
              intro b bs hc t0 ht0 hv
              exact ihd b bs hc t0 ht0 hv
            · cases he0
      · replace h : Except.bind (obRun stm seqm rest) (fun r' =>
            (Except.ok (r'.1, r'.2.1, b0 :: r'.2.2) :
              Except String (ObState × Nat × List (BBO × Nat)))) = .ok (st2, seq2, em) := h
        rcases h2 : obRun stm seqm rest with err | r'
        · rw [h2] at h
          replace h : (Except.error err : Except String (ObState × Nat × List (BBO × Nat))) =
              .ok (st2, seq2, em) := h
          cases h
        · rcases r' with ⟨st', seq', em'⟩
          rw [h2] at h
          replace h : (Except.ok (st', seq', b0 :: em') :
              Except String (ObState × Nat × List (BBO × Nat))) = .ok (st2, seq2, em) := h
          simp only [Except.ok.injEq, Prod.mk.injEq] at h
          obtain ⟨hst, hseq, hem⟩ := h
          subst hst
          subst hem
          rcases onL2_spec h1 with ⟨hsteq, hseqeq, he0⟩ | ⟨b', happ, hcase⟩
          · cases he0
          · obtain ⟨hbk', hsym⟩ := applyLevelUpdate_inv hbk happ
            have hvalid : tupleValid (bestTupleOf b') := best_tupleValid hbk'
            rcases hcase with ⟨hlast, hsteq, hseqeq, he0⟩ | ⟨hlast, hsteq, hseqeq, he0⟩
            · cases he0
            · have hb0 : b0 = (emitOf e.symbol (bestTupleOf b'), sequence + 1) := by
                injection he0
              subst hb0
              subst hsteq
              have hlb' : ∀ t, (⟨b', some (bestTupleOf b')⟩ : ObState).last_best = some t →
                  tupleValid t := by
                intro t ht
                have ht' : some (bestTupleOf b') = some t := ht
                injection ht' with ht''
                rw [← ht'']
                exact hvalid
              obtain ⟨ib, il, ic, ihd⟩ := ih hbk' hlb' h2
              refine ⟨ib, il, ?_, ?_⟩
              · rw [List.chain'_cons']
                refine ⟨?_, ic⟩
                intro b1 hb1
                rcases hemx : em' with _ | ⟨b1', bs⟩
                · rw [hemx] at hb1
                  cases hb1
                · rw [hemx] at hb1
                  have hb1' : b1' = b1 := by
                    have hsome : some b1' = some b1 := hb1
                    injection hsome
                  have hne := ihd b1' bs hemx (bestTupleOf b') rfl hvalid
                  rw [hb1'] at hne
                  exact fun hq => hne (by rw [← hq]; rfl)
              · intro b bs hc t0 ht0 hv
                have hb : b = (emitOf e.symbol (bestTupleOf b'), sequence + 1) := by
                  injection hc with hc1 hc2
                  rw [hc1]
                rw [hb]
                intro hq
                have hq' : tupleEmit (bestTupleOf b') = tupleEmit t0 := hq
                have heq2 := tupleEmit_inj hvalid hv hq'
                rw [← heq2] at ht0
                exact hlast ht0

/-- **C8**: after folding an `order_book_level` event for its symbol, the
order-book component emits a `best_bid_ask` event only when the top-of-book
four-tuple differs from the last emitted one (exact field match), rendering
absent sides as zeros under a fresh sequence and remembering the new tuple;
when the tuple equals the last emitted one nothing is emitted; consequently,
over any successful run from a fresh component, the emitted event list never
carries two consecutive identical four-tuples. -/
theorem C8_bbo_dedup {symbol : String} {evs : List L2Ev}
    {st2 : ObState} {seq2 : Nat} {em : List (BBO × Nat)}
    (h : obRun (ObState.init symbol) 0 evs = .ok (st2, seq2, em)) :
    List.Chain' (fun a b => bboTuple a.1 ≠ bboTuple b.1) em ∧
    (∀ (st : ObState) (sequence : Nat) (e : L2Ev) (st' : ObState) (seq' : Nat)
        (b : BBO × Nat),
      st.onL2 sequence e = .ok (st', seq', some b) →
      ∃ b2, st.book.applyLevelUpdate e = .ok b2 ∧
        st.last_best ≠ some (bestTupleOf b2) ∧
        st' = ⟨b2, some (bestTupleOf b2)⟩ ∧
        b = (emitOf e.symbol (bestTupleOf b2), sequence + 1)) ∧
    (∀ (st : ObState) (sequence : Nat) (e : L2Ev) (b2 : Book),
      e.symbol = st.book.symbol →
      st.book.applyLevelUpdate e = .ok b2 →
      st.last_best = some (bestTupleOf b2) →
      st.onL2 sequence e = .ok (⟨b2, st.last_best⟩, sequence, none)) := by
  refine ⟨?_, ?_, ?_⟩
  · have hbk : BookInv (ObState.init symbol).book := by
      refine ⟨?_, ?_, rfl, rfl⟩
      · intro p s hmem
        cases hmem
      · intro p s hmem
        cases hmem
    have hlb : ∀ t, (ObState.init symbol).last_best = some t → tupleValid t := by
      intro t ht
      cases ht
    exact (obRun_chain evs hbk hlb h).2.2.1
  · intro st sequence e st' seq' b h'
    rcases onL2_spec h' with ⟨_, _, he0⟩ | ⟨b2, happ, hcase⟩
    · cases he0
    · rcases hcase with ⟨_, _, _, he0⟩ | ⟨hlast, hsteq, hseqeq, he0⟩
      · cases he0
      · have hb : b = (emitOf e.symbol (bestTupleOf b2), sequence + 1) := by
          injection he0
        exact ⟨b2, happ, hlast, hsteq, hb⟩
  · intro st sequence e b2 hsym happ hlast
    unfold ObState.onL2
    rw [if_neg (fun hne => hne hsym)]
    rw [happ]
    show (if st.last_best = some (bestTupleOf b2) then
        (Except.ok ((⟨b2, st.last_best⟩ : ObState), sequence, (none : Option (BBO × Nat))) :
          Except String (ObState × Nat × Option (BBO × Nat)))
      else
        Except.ok (⟨b2, some (bestTupleOf b2)⟩, sequence + 1,
          some (emitOf e.symbol (bestTupleOf b2), sequence + 1))) =
      Except.ok (⟨b2, st.last_best⟩, sequence, none)
    rw [if_pos hlast, hlast]

/-- Witness for C8: a level set at 100×1 emits one event; repeating the
identical level leaves the tuple unchanged and emits nothing. -/
theorem C8_bbo_dedup_witness :
    obRun (ObState.init "S") 0
        [⟨"S", .bid, 100, 1⟩, ⟨"S", .bid, 100, 1⟩] =
      .ok (⟨⟨"S", [(100, 1)], [], some 100, none⟩,
            some (some 100, some 1, none, none)⟩, 1,
           [(⟨"S", 100, 1, 0, 0⟩, 1)]) ∧
    List.Chain' (fun a b => bboTuple a.1 ≠ bboTuple b.1)
      [((⟨"S", 100, 1, 0, 0⟩ : BBO), 1)] :=
  ⟨by decide, (@C8_bbo_dedup "S"
      [⟨"S", .bid, 100, 1⟩, ⟨"S", .bid, 100, 1⟩]
      ⟨⟨"S", [(100, 1)], [], some 100, none⟩, some (some 100, some 1, none, none)⟩ 1
      [(⟨"S", 100, 1, 0, 0⟩, 1)] (by decide)).1⟩

/-! ## C2: the event journal, dispatch order, and sequence allocation -/

theorem range'_glue : ∀ (m s k : Nat),
    List.range' s m ++ List.range' (s + m) k = List.range' s (m + k) := by
  intro m
  induction m with
  | zero =>
    intro s k
    rw [Nat.add_zero, Nat.zero_add]
    rfl
  | succ n ihn =>
    intro s k
    rw [List.range'_succ]
    rw [show s + (n + 1) = s + 1 + n from by omega]
    rw [show n + 1 + k = (n + k) + 1 from by omega]
    rw [List.range'_succ]
    rw [List.cons_append, ihn]

theorem allocStep (sym : String) (bs : BookSide) :
    ∀ (us : List LevelUpdate) (acc : List (L2Ev × Nat)) (c : Nat),
    (us.foldl (fun acc u =>
        (acc.1 ++ [(⟨sym, bs, u.price, u.size⟩, acc.2 + 1)], acc.2 + 1)) (acc, c)).2 =
      c + us.length ∧
    (us.foldl (fun acc u =>
        (acc.1 ++ [(⟨sym, bs, u.price, u.size⟩, acc.2 + 1)], acc.2 + 1)) (acc, c)).1.map
        Prod.snd =
      acc.map Prod.snd ++ List.range' (c + 1) us.length := by
  intro us
  induction us with
  | nil =>
    intro acc c
    constructor
    · rfl
    · simp
  | cons u rest ih =>
    intro acc c
    simp only [List.foldl_cons, List.length_cons]
    obtain ⟨ih2, ih1⟩ := ih (acc ++ [(⟨sym, bs, u.price, u.size⟩, c + 1)]) (c + 1)
    constructor
    · rw [ih2]
      omega
    · rw [ih1, List.map_append, List.append_assoc]
      congr 1

/-- The replay adapter's pre-allocation: the level events carry the fresh
sequences `seq0+1 … seq0+n` in input order, and the counter ends at
`seq0+n`. -/
theorem allocLevelEvents_spec (d : Delta) (seq0 : Nat) :
    (allocLevelEvents d seq0).2 =
      seq0 + (d.bid_updates.length + d.ask_updates.length) ∧
    (allocLevelEvents d seq0).1.map Prod.snd =
      List.range' (seq0 + 1) (d.bid_updates.length + d.ask_updates.length) := by
  obtain ⟨hb2, hb1⟩ := allocStep d.symbol .bid d.bid_updates [] seq0
  have ha := allocStep d.symbol .ask d.ask_updates
    (d.bid_updates.foldl (fun acc u =>
      (acc.1 ++ [((⟨d.symbol, .bid, u.price, u.size⟩ : L2Ev), acc.2 + 1)], acc.2 + 1))
      (([] : List (L2Ev × Nat)), seq0)).1
    (d.bid_updates.foldl (fun acc u =>
      (acc.1 ++ [((⟨d.symbol, .bid, u.price, u.size⟩ : L2Ev), acc.2 + 1)], acc.2 + 1))
      (([] : List (L2Ev × Nat)), seq0)).2
  constructor
  · have h2 : (allocLevelEvents d seq0).2 =
        (d.bid_updates.foldl (fun acc u =>
          (acc.1 ++ [((⟨d.symbol, .bid, u.price, u.size⟩ : L2Ev), acc.2 + 1)], acc.2 + 1))
          (([] : List (L2Ev × Nat)), seq0)).2 + d.ask_updates.length := ha.1
    rw [h2, hb2]
    omega
  · have h1 : (allocLevelEvents d seq0).1.map Prod.snd =
        (d.bid_updates.foldl (fun acc u =>
          (acc.1 ++ [((⟨d.symbol, .bid, u.price, u.size⟩ : L2Ev), acc.2 + 1)], acc.2 + 1))
          (([] : List (L2Ev × Nat)), seq0)).1.map Prod.snd ++
        List.range' ((d.bid_updates.foldl (fun acc u =>
          (acc.1 ++ [((⟨d.symbol, .bid, u.price, u.size⟩ : L2Ev), acc.2 + 1)], acc.2 + 1))
          (([] : List (L2Ev × Nat)), seq0)).2 + 1) d.ask_updates.length := ha.2
    rw [h1, hb1, hb2]
    simp only [List.map_nil, List.nil_append]
    have hg := range'_glue d.bid_updates.length (seq0 + 1) d.ask_updates.length
    rw [show seq0 + 1 + d.bid_updates.length = seq0 + d.bid_updates.length + 1 from by
      omega] at hg
    exact hg

/-- One published `order_book_level` event appends its own journal line
first (in bus dispatch order) and then, when the book component emits, the
nested `best_bid_ask` line with the freshly allocated next sequence. -/
theorem publishL2_spec {s : RSys} {ev : L2Ev} {evSeq : Nat} {s' : RSys}
    (h : s.publishL2 ev evSeq = .ok s') :
    s.sequence ≤ s'.sequence ∧
    ∃ L, s'.journal = s.journal ++ L ∧ s'.dispatched = s.dispatched ++ L ∧
      L.map Prod.snd = evSeq :: List.range' (s.sequence + 1) (s'.sequence - s.sequence) := by
  replace h : Except.bind (s.ob.onL2 s.sequence ev) (fun r =>
      match r.2.2 with
      | none => (Except.ok { s.dispatchLine "market.order_book_level" evSeq with
          ob := r.1, sequence := r.2.1 } : Except String RSys)
      | some bbo => Except.ok (({ s.dispatchLine "market.order_book_level" evSeq with
          ob := r.1, sequence := r.2.1 }).dispatchLine "market.best_bid_ask" bbo.2)) =
    .ok s' := h
  rcases hr : s.ob.onL2 s.sequence ev with err | r
  · rw [hr] at h
    replace h : (Except.error err : Except String RSys) = .ok s' := h
    cases h
  · rcases r with ⟨ob', seqN, emo⟩
    rw [hr] at h
    rcases emo with _ | bbo
    · replace h : (Except.ok { s.dispatchLine "market.order_book_level" evSeq with
          ob := ob', sequence := seqN } : Except String RSys) = .ok s' := h
      injection h with h
      rcases onL2_spec hr with ⟨hst, hsq, he0⟩ | ⟨b', happ, hcase⟩
      · subst hsq
        subst h
        exact ⟨Nat.le.refl, [("market.order_book_level", evSeq)], rfl, rfl, by
          show List.map Prod.snd [("market.order_book_level", evSeq)] =
            evSeq :: List.range' (s.sequence + 1) (s.sequence - s.sequence)
          rw [Nat.sub_self]
          rfl⟩
      · rcases hcase with ⟨hlast, hsteq, hsq, he0⟩ | ⟨hlast, hsteq, hsq, he0⟩
        · subst hsq
          subst h
          exact ⟨Nat.le.refl, [("market.order_book_level", evSeq)], rfl, rfl, by
            show List.map Prod.snd [("market.order_book_level", evSeq)] =
              evSeq :: List.range' (s.sequence + 1) (s.sequence - s.sequence)
            rw [Nat.sub_self]
            rfl⟩
        · cases he0
    · replace h : (Except.ok (({ s.dispatchLine "market.order_book_level" evSeq with
          ob := ob', sequence := seqN }).dispatchLine "market.best_bid_ask" bbo.2) :
          Except String RSys) = .ok s' := h
      injection h with h
      rcases onL2_spec hr with ⟨hst, hsq, he0⟩ | ⟨b', happ, hcase⟩
      · cases he0
      · rcases hcase with ⟨hlast, hsteq, hsq, he0⟩ | ⟨hlast, hsteq, hsq, he0⟩
        · cases he0
        · have hbbo : bbo = (emitOf ev.symbol (bestTupleOf b'), s.sequence + 1) := by
            injection he0
          subst hbbo
          subst hsq
          subst h
          refine ⟨Nat.le_succ _, [("market.order_book_level", evSeq),
            ("market.best_bid_ask", s.sequence + 1)], ?_, ?_, ?_⟩
          · show (s.journal ++ [("market.order_book_level", evSeq)]) ++
                [("market.best_bid_ask", s.sequence + 1)] =
              s.journal ++ [("market.order_book_level", evSeq),
                ("market.best_bid_ask", s.sequence + 1)]
            rw [List.append_assoc]
            rfl
          · show (s.dispatched ++ [("market.order_book_level", evSeq)]) ++
                [("market.best_bid_ask", s.sequence + 1)] =
              s.dispatched ++ [("market.order_book_level", evSeq),
                ("market.best_bid_ask", s.sequence + 1)]
            rw [List.append_assoc]
            rfl
          · show List.map Prod.snd [("market.order_book_level", evSeq),
                ("market.best_bid_ask", s.sequence + 1)] =
              evSeq :: List.range' (s.sequence + 1) (s.sequence + 1 - s.sequence)
            rw [Nat.add_sub_cancel_left]
            rfl

/-- Folding `publish` over the pre-allocated level events: the journal and
the dispatch log are extended by one common line list whose sequences are a
permutation of the given level sequences together with the nested
`best_bid_ask` sequences `st.sequence+1 … st'.sequence`. -/
theorem publishFold_spec : ∀ (evs : List (L2Ev × Nat)) {st st' : RSys},
    evs.foldlM (fun a evp => a.publishL2 evp.1 evp.2) st = .ok st' →
    st.sequence ≤ st'.sequence ∧
    ∃ L, st'.journal = st.journal ++ L ∧ st'.dispatched = st.dispatched ++ L ∧
      (L.map Prod.snd).Perm
        (evs.map Prod.snd ++ List.range' (st.sequence + 1) (st'.sequence - st.sequence)) := by
  intro evs
  induction evs with
  | nil =>
    intro st st' h
    replace h : (Except.ok st : Except String RSys) = .ok st' := h
    injection h with h
    subst h
    refine ⟨Nat.le.refl, [], by simp, by simp, ?_⟩
    rw [Nat.sub_self]
    simp
  | cons evp rest ih =>
    intro st st' h
    replace h : Except.bind (st.publishL2 evp.1 evp.2)
        (fun a => rest.foldlM (fun a evp => a.publishL2 evp.1 evp.2) a) = .ok st' := h
    rcases h1 : st.publishL2 evp.1 evp.2 with err | stm
    · rw [h1] at h
      replace h : (Except.error err : Except String RSys) = .ok st' := h
      cases h
    · rw [h1] at h
      replace h : rest.foldlM (fun a evp => a.publishL2 evp.1 evp.2) stm = .ok st' := h
      obtain ⟨hle1, L1, hj1, hd1, hm1⟩ := publishL2_spec h1
      obtain ⟨hle2, L2, hj2, hd2, hp2⟩ := ih h
      have hglue := range'_glue (stm.sequence - st.sequence) (st.sequence + 1)
        (st'.sequence - stm.sequence)
      rw [show st.sequence + 1 + (stm.sequence - st.sequence) = stm.sequence + 1 from by
        omega] at hglue
      rw [show stm.sequence - st.sequence + (st'.sequence - stm.sequence) =
        st'.sequence - st.sequence from by omega] at hglue
      refine ⟨Nat.le_trans hle1 hle2, L1 ++ L2, ?_, ?_, ?_⟩
      · rw [hj2, hj1, List.append_assoc]
      · rw [hd2, hd1, List.append_assoc]
      · rw [List.map_append, hm1]
        simp only [List.map_cons, List.cons_append]
        refine List.Perm.cons _ ?_
        refine (List.Perm.append_left _ hp2).trans ?_
        rw [← hglue, ← List.append_assoc, ← List.append_assoc]
        exact List.Perm.append_right _ List.perm_append_comm

/-- `_on_tick` for one delta: the journal and dispatch log are extended by
one common list whose sequence numbers are a permutation of the contiguous
fresh block `s.sequence+1 … s'.sequence`. -/
theorem onTick_spec {s : RSys} {d : Delta} {s' : RSys}
    (h : s.onTick d = .ok s') :
    s.sequence ≤ s'.sequence ∧
    ∃ L, s'.journal = s.journal ++ L ∧ s'.dispatched = s.dispatched ++ L ∧
      (L.map Prod.snd).Perm (List.range' (s.sequence + 1) (s'.sequence - s.sequence)) := by
  replace h : (allocLevelEvents d s.sequence).1.foldlM
      (fun st evp => st.publishL2 evp.1 evp.2)
      { s with sequence := (allocLevelEvents d s.sequence).2 } = .ok s' := h
  obtain ⟨halloc2, halloc1⟩ := allocLevelEvents_spec d s.sequence
  obtain ⟨hle, L, hj, hd, hp⟩ := publishFold_spec _ h
  have hle' : (allocLevelEvents d s.sequence).2 ≤ s'.sequence := hle
  rw [halloc2] at hle'
  have hj' : s'.journal = s.journal ++ L := hj
  have hd' : s'.dispatched = s.dispatched ++ L := hd
  have hp' : (L.map Prod.snd).Perm
      ((allocLevelEvents d s.sequence).1.map Prod.snd ++
        List.range' ((allocLevelEvents d s.sequence).2 + 1)
          (s'.sequence - (allocLevelEvents d s.sequence).2)) := hp
  rw [halloc1, halloc2] at hp'
  have hg := range'_glue (d.bid_updates.length + d.ask_updates.length) (s.sequence + 1)
    (s'.sequence - (s.sequence + (d.bid_updates.length + d.ask_updates.length)))
  rw [show s.sequence + 1 + (d.bid_updates.length + d.ask_updates.length) =
      s.sequence + (d.bid_updates.length + d.ask_updates.length) + 1 from by omega] at hg
  rw [show d.bid_updates.length + d.ask_updates.length +
      (s'.sequence - (s.sequence + (d.bid_updates.length + d.ask_updates.length))) =
      s'.sequence - s.sequence from by omega] at hg
  rw [hg] at hp'
  exact ⟨by omega, L, hj', hd', hp'⟩

/-- **C2** counterexample: driving one tick whose delta carries two bid
levels journals the lines in dispatch order 1, 2, 4, 3 — the nested
`best_bid_ask` (sequence 4, allocated at publish time) lands before the
second level event (sequence 3, pre-allocated) — so the journal line order
is NOT sequence order and the persisted sequence column is not the sorted
sequence 1, 2, 3, …. -/
theorem C2_counterexample_journal_not_sequence_order :
    (RSys.init "S").driveTick c2delta = .ok c2res ∧
    c2res.journal.map Prod.snd = [1, 2, 4, 3] ∧
    ¬ List.Chain' (fun a b => a < b) [1, 2, 4, 3] :=
  ⟨by decide, by decide, by
    intro hc
    rw [List.chain'_cons, List.chain'_cons, List.chain'_cons] at hc
    exact absurd hc.2.2.1 (by decide)⟩

/-- **C2** (amended): over a driven tick, every dispatched event is appended
to the journal as exactly one line and in bus dispatch order (journal =
dispatch log), the sequence counter only grows, and the sequence numbers of
the new lines are exactly the contiguous fresh block
`s.sequence+1 … s'.sequence` with no gap and no repetition — but as a
permutation, not in line order: pre-allocated level sequences are published
after a nested `best_bid_ask` may have taken a later sequence. -/
theorem C2_journal_sequences {s : RSys} {d : Delta} {s' : RSys}
    (hjd : s.dispatched = s.journal)
    (h : s.driveTick d = .ok s') :
    s'.dispatched = s'.journal ∧
    s.sequence ≤ s'.sequence ∧
    ∃ L, s'.journal = s.journal ++ L ∧
      (L.map Prod.snd).Perm
        (List.range' (s.sequence + 1) (s'.sequence - s.sequence)) := by
  replace h : (({ s with sequence := s.sequence + 1 } : RSys).dispatchLine
      "system.engine_tick" (s.sequence + 1)).onTick d = .ok s' := h
  obtain ⟨hle, L, hj, hd, hp⟩ := onTick_spec h
  have hle' : s.sequence + 1 ≤ s'.sequence := hle
  have hj' : s'.journal = (s.journal ++ [("system.engine_tick", s.sequence + 1)]) ++ L := hj
  have hd' : s'.dispatched =
      (s.dispatched ++ [("system.engine_tick", s.sequence + 1)]) ++ L := hd
  have hp' : (L.map Prod.snd).Perm
      (List.range' (s.sequence + 1 + 1) (s'.sequence - (s.sequence + 1))) := hp
  refine ⟨?_, by omega, ⟨("system.engine_tick", s.sequence + 1) :: L, ?_, ?_⟩⟩
  · rw [hd', hj', hjd]
  · rw [hj', List.append_assoc]
    rfl
  · simp only [List.map_cons]
    have hrw : List.range' (s.sequence + 1) (s'.sequence - s.sequence) =
        (s.sequence + 1) ::
          List.range' (s.sequence + 1 + 1) (s'.sequence - (s.sequence + 1)) := by
      rw [show s'.sequence - s.sequence = (s'.sequence - (s.sequence + 1)) + 1 from by omega,
        List.range'_succ]
    rw [hrw]
    exact List.Perm.cons _ hp'

/-! ## C6: order-store invariants of the paper execution adapter -/

theorem kvGet_kvSet_self {K α : Type} [DecidableEq K] :
    ∀ (m : List (K × α)) (k : K) (v : α), kvGet (kvSet m k v) k = some v := by
  intro m
  induction m with
  | nil =>
    intro k v
    simp [kvSet, kvGet]
  | cons kv rest ih =>
    intro k v
    rcases kv with ⟨k1, v1⟩
    unfold kvSet
    by_cases hk : k1 = k
    · rw [if_pos hk]
      unfold kvGet
      rw [if_pos rfl]
    · rw [if_neg hk]
      unfold kvGet
      rw [if_neg hk]
      exact ih k v

theorem kvGet_kvSet_ne {K α : Type} [DecidableEq K] :
    ∀ (m : List (K × α)) (k k' : K) (v : α), k' ≠ k →
      kvGet (kvSet m k v) k' = kvGet m k' := by
  intro m
  induction m with
  | nil =>
    intro k k' v hne
    show kvGet [(k, v)] k' = kvGet [] k'
    unfold kvGet
    rw [if_neg (fun h => hne h.symm)]
    rfl
  | cons kv rest ih =>
    intro k k' v hne
    rcases kv with ⟨k1, v1⟩
    unfold kvSet
    by_cases hk : k1 = k
    · rw [if_pos hk]
      show kvGet ((k, v) :: rest) k' = kvGet ((k1, v1) :: rest) k'
      unfold kvGet
      rw [if_neg (fun h => hne h.symm), if_neg (fun h => hne (hk.symm.trans h).symm)]
    · rw [if_neg hk]
      show kvGet ((k1, v1) :: kvSet rest k v) k' = kvGet ((k1, v1) :: rest) k'
      unfold kvGet
      by_cases hk1 : k1 = k'
      · rw [if_pos hk1, if_pos hk1]
      · rw [if_neg hk1, if_neg hk1]
        exact ih k k' v hne

theorem kvSet_keys {K α : Type} [DecidableEq K] :
    ∀ (m : List (K × α)) (k : K) (v : α),
      (kvSet m k v).map Prod.fst =
        if k ∈ m.map Prod.fst then m.map Prod.fst else m.map Prod.fst ++ [k] := by
  intro m
  induction m with
  | nil =>
    intro k v
    simp [kvSet]
  | cons kv rest ih =>
    intro k v
    rcases kv with ⟨k1, v1⟩
    unfold kvSet
    by_cases hk : k1 = k
    · rw [if_pos hk]
      subst hk
      simp
    · rw [if_neg hk]
      simp only [List.map_cons]
      rw [ih]
      by_cases hmem : k ∈ rest.map Prod.fst
      · rw [if_pos hmem, if_pos (List.mem_cons_of_mem _ hmem)]
      · have hnx : ¬ k ∈ k1 :: rest.map Prod.fst := by
          intro hx
          rcases List.mem_cons.mp hx with h1 | h2
          · exact hk h1.symm
          · exact hmem h2
        rw [if_neg hmem, if_neg hnx]
        rfl

theorem kvSet_nodup {K α : Type} [DecidableEq K] {m : List (K × α)} (k : K) (v : α)
    (h : (m.map Prod.fst).Nodup) : ((kvSet m k v).map Prod.fst).Nodup := by
  rw [kvSet_keys]
  split
  · exact h
  next hk =>
    refine List.Nodup.append h (List.nodup_singleton k) ?_
    intro a ha hb
    rw [List.mem_singleton] at hb
    subst hb
    exact hk ha

/-- `apply_fill` keeps the quantity, only advances the status along
`open → filled`, is the identity on non-open records, and never drives the
remaining quantity negative or upward. -/
theorem applyFill_ord {r : OrderRecord} {fq : ℚ} {r' : OrderRecord}
    (h : r.applyFill fq = .ok r') :
    r'.quantity = r.quantity ∧ statusLE r.status r'.status ∧
    (r.status ≠ .opened → r' = r) ∧
    (0 ≤ r.remaining → 0 ≤ r'.remaining ∧ r'.remaining ≤ r.remaining) := by
  simp only [OrderRecord.applyFill] at h
  split at h
  · injection h with h
    subst h
    exact ⟨rfl, Or.inr rfl, fun _ => rfl, fun h0 => ⟨h0, le_refl _⟩⟩
  next hopen =>
    split at h
    · cases h
    next hfq =>
      split at h
      · cases h
      next hbig =>
        split at h
        · injection h with h
          subst h
          refine ⟨rfl, Or.inl (not_not.mp hopen),
            fun hne => absurd (not_not.mp hopen) hne, ?_⟩
          intro h0
          exact ⟨le_refl 0, h0⟩
        next hsnap =>
          injection h with h
          subst h
          refine ⟨rfl, Or.inr rfl, fun hne => absurd (not_not.mp hopen) hne, ?_⟩
          intro h0
          push_neg at hsnap hfq
          have hE := EPS_pos
          constructor
          · show 0 ≤ r.remaining - fq
            linarith
          · show r.remaining - fq ≤ r.remaining
            linarith

theorem OrdEvolve_refl (st : AdapterState) : OrdEvolve st st := by
  intro oid r h
  exact ⟨r, h, Or.inr rfl, fun _ => rfl⟩

theorem OrdEvolve_trans {a b c : AdapterState} (h1 : OrdEvolve a b) (h2 : OrdEvolve b c) :
    OrdEvolve a c := by
  intro oid r hr
  obtain ⟨r1, hg1, hs1, hn1⟩ := h1 oid r hr
  obtain ⟨r2, hg2, hs2, hn2⟩ := h2 oid r1 hg1
  refine ⟨r2, hg2, ?_, ?_⟩
  · rcases hs1 with h | h
    · exact Or.inl h
    · rcases hs2 with h' | h'
      · exact Or.inl (h.symm.trans h')
      · exact Or.inr (h'.trans h)
  · intro hne
    have e1 : r1 = r := hn1 hne
    have e2 : r2 = r1 := hn2 (by rw [e1]; exact hne)
    rw [e2, e1]

/-- Success of `check_new_order` implies the quantity passed the first
gate. -/
theorem checkNewOrder_ok_qty {rs : RiskState} {symbol : String} {side : Side} {qty : ℚ}
    {price : Option ℚ} {oid : Option String}
    (h : (rs.checkNewOrder symbol side qty price oid).1.ok = true) : EPS < qty := by
  by_cases hv : validQty qty = true
  · exact validQty_iff.mp hv
  · exfalso
    unfold RiskState.checkNewOrder at h
    rw [if_pos hv] at h
    replace h : false = true := h
    cases h

/-- `_try_fill` succeeds and preserves the order-store invariant while only
evolving records forward. -/
theorem tryFill_ord (fm : FillModelKind) (st : AdapterState) (oid : String)
    (hinv : OrdInv st) :
    ∃ st', st.tryFill fm oid = .ok st' ∧ OrdInv st' ∧ OrdEvolve st st' := by
  unfold AdapterState.tryFill
  rcases hord : kvGet st.orders oid with _ | order
  · exact ⟨st, rfl, hinv, OrdEvolve_refl st⟩
  simp only []
  split
  · exact ⟨st, rfl, hinv, OrdEvolve_refl st⟩
  next h1 =>
    rcases hbbo : kvGet st.bbo_by_symbol order.symbol with _ | bbo
    · exact ⟨st, rfl, hinv, OrdEvolve_refl st⟩
    simp only []
    by_cases hex : (decideFill fm order bbo).executable = true
    · obtain ⟨hopen, fp, fq, heq, hfp, hfq1, hfq2⟩ := decideFill_sound fm order bbo hex
      have hq0 : 0 < fq := lt_trans EPS_pos hfq1
      obtain ⟨r', hr'⟩ := applyFill_ok order fq hq0 hfq2
      obtain ⟨p', hp'⟩ := positionOnFill_ok
        (kvGetD st.positions order.symbol (Position.init order.symbol))
        order.side fq fp hq0 hfp
      obtain ⟨rs', hrs'⟩ := riskOnFill_ok st.risk order.symbol order.side fq
        (some order.order_id) none hfq1
      obtain ⟨hqy, hs, hnop, hbound⟩ := applyFill_ord hr'
      have hb0 := hinv.2 oid order hord
      simp only [heq, if_neg (not_le.mpr hq0), hr', hp', hrs']
      refine ⟨_, rfl, ?_, ?_⟩
      · constructor
        · exact kvSet_nodup _ _ hinv.1
        · intro oid2 r2 hget
          by_cases he2 : oid2 = oid
          · subst he2
            have hget' : kvGet (kvSet st.orders oid2 r') oid2 = some r2 := hget
            rw [kvGet_kvSet_self] at hget'
            injection hget' with hg
            rw [← hg]
            obtain ⟨hc1, hc2⟩ := hbound hb0.1
            exact ⟨hc1, le_trans hc2 (le_trans hb0.2 (le_of_eq hqy.symm))⟩
          · have hget' : kvGet (kvSet st.orders oid r') oid2 = some r2 := hget
            rw [kvGet_kvSet_ne _ _ _ _ he2] at hget'
            exact hinv.2 oid2 r2 hget'
      · intro oid2 r2 hget
        by_cases he2 : oid2 = oid
        · subst he2
          have hr2 : order = r2 := Option.some.inj (hord.symm.trans hget)
          subst hr2
          exact ⟨r', kvGet_kvSet_self _ _ _, Or.inl hopen, fun hne => absurd hopen hne⟩
        · refine ⟨r2, ?_, Or.inr rfl, fun _ => rfl⟩
          show kvGet (kvSet st.orders oid r') oid2 = some r2
          rw [kvGet_kvSet_ne _ _ _ _ he2]
          exact hget
    · rw [if_pos (by simpa using hex)]
      exact ⟨st, rfl, hinv, OrdEvolve_refl st⟩

/-- One loop body of `_on_bbo` preserves the order-store invariant. -/
theorem bboStep_ord (fm : FillModelKind) (st : AdapterState) (oid : String)
    (hinv : OrdInv st) :
    ∃ st', bboStep fm st oid = .ok st' ∧ OrdInv st' ∧ OrdEvolve st st' := by
  unfold bboStep
  rcases hg : kvGet st.orders oid with _ | r
  · exact ⟨st, rfl, hinv, OrdEvolve_refl st⟩
  simp only []
  by_cases hst : r.status ≠ .opened
  · rw [if_pos hst]
    exact ⟨st, rfl, hinv, OrdEvolve_refl st⟩
  · rw [if_neg hst]
    exact tryFill_ord fm st oid hinv

theorem bboFold_ord (fm : FillModelKind) : ∀ (oids : List String) {st st' : AdapterState},
    OrdInv st → List.foldlM (bboStep fm) st oids = .ok st' →
    OrdInv st' ∧ OrdEvolve st st' := by
  intro oids
  induction oids with
  | nil =>
    intro st st' hinv h
    replace h : (Except.ok st : Except String AdapterState) = .ok st' := h
    injection h with h
    subst h
    exact ⟨hinv, OrdEvolve_refl st⟩
  | cons oid rest ih =>
    intro st st' hinv h
    replace h : Except.bind (bboStep fm st oid)
        (fun s => List.foldlM (bboStep fm) s rest) = .ok st' := h
    obtain ⟨stm, hmeq, hi, he⟩ := bboStep_ord fm st oid hinv
    rw [hmeq] at h
    replace h : List.foldlM (bboStep fm) stm rest = .ok st' := h
    obtain ⟨hi2, he2⟩ := ih hi h
    exact ⟨hi2, OrdEvolve_trans he he2⟩

/-- `_on_bbo` preserves the order-store invariant. -/
theorem onBBO_ord (fm : FillModelKind) (st : AdapterState) (e : BBO) {st' : AdapterState}
    (hinv : OrdInv st) (h : st.onBBO fm e = .ok st') :
    OrdInv st' ∧ OrdEvolve st st' := by
  replace h : List.foldlM (bboStep fm)
      { st with bbo_by_symbol := kvSet st.bbo_by_symbol e.symbol e }
      (kvGetD st.orders_by_symbol e.symbol []) = .ok st' := h
  have hinv1 : OrdInv { st with bbo_by_symbol := kvSet st.bbo_by_symbol e.symbol e } := hinv
  obtain ⟨hi, he⟩ := bboFold_ord fm _ hinv1 h
  exact ⟨hi, he⟩

/-- `_on_cancel_requested` preserves the order-store invariant. -/
theorem onCancelRequested_ord (st : AdapterState) (symbol order_id : String)
    (hinv : OrdInv st) :
    OrdInv (st.onCancelRequested symbol order_id) ∧
    OrdEvolve st (st.onCancelRequested symbol order_id) := by
  simp only [AdapterState.onCancelRequested]
  rcases hg : kvGet st.orders order_id with _ | r
  · exact ⟨hinv, OrdEvolve_refl st⟩
  simp only []
  by_cases hsym : r.symbol ≠ symbol
  · rw [if_pos hsym]
    exact ⟨hinv, OrdEvolve_refl st⟩
  · rw [if_neg hsym]
    by_cases hst : r.status ≠ .opened
    · rw [if_pos hst]
      exact ⟨hinv, OrdEvolve_refl st⟩
    · rw [if_neg hst]
      have hopen : r.status = .opened := not_not.mp hst
      constructor
      · constructor
        · exact kvSet_nodup _ _ hinv.1
        · intro oid2 r2 hget
          by_cases he2 : oid2 = order_id
          · subst he2
            have hget' : kvGet (kvSet st.orders oid2 r.cancel) oid2 = some r2 := hget
            rw [kvGet_kvSet_self] at hget'
            injection hget' with hg2
            rw [← hg2]
            have hb := hinv.2 oid2 r hg
            unfold OrderRecord.cancel
            rw [if_neg hst]
            exact ⟨le_refl 0, le_trans hb.1 hb.2⟩
          · have hget' : kvGet (kvSet st.orders order_id r.cancel) oid2 = some r2 := hget
            rw [kvGet_kvSet_ne _ _ _ _ he2] at hget'
            exact hinv.2 oid2 r2 hget'
      · intro oid2 r2 hget
        by_cases he2 : oid2 = order_id
        · subst he2
          have hr2 : r = r2 := Option.some.inj (hg.symm.trans hget)
          subst hr2
          exact ⟨r.cancel, kvGet_kvSet_self _ _ _, Or.inl hopen, fun hne => absurd hopen hne⟩
        · refine ⟨r2, ?_, Or.inr rfl, fun _ => rfl⟩
          show kvGet (kvSet st.orders order_id r.cancel) oid2 = some r2
          rw [kvGet_kvSet_ne _ _ _ _ he2]
          exact hget

/-- Inserting a fresh open record with sane bounds preserves the
order-store invariant, whatever happens to the other adapter fields. -/
theorem submitInsert_ord {st : AdapterState} {e : SubmittedEvent}
    (hinv : OrdInv st) (hfresh : kvGet st.orders e.order_id = none) (hq : 0 ≤ e.quantity)
    (bb : List (String × BBO)) (obs : List (String × List String))
    (ps : List (String × Position)) (rk : RiskState) (sq : Nat) (em : List OutEvent) :
    OrdInv (⟨bb, kvSet st.orders e.order_id
        ⟨e.symbol, e.order_id, e.side, e.price, e.quantity, e.quantity, .opened⟩,
      obs, ps, rk, sq, em⟩ : AdapterState) ∧
    OrdEvolve st ⟨bb, kvSet st.orders e.order_id
        ⟨e.symbol, e.order_id, e.side, e.price, e.quantity, e.quantity, .opened⟩,
      obs, ps, rk, sq, em⟩ := by
  constructor
  · constructor
    · exact kvSet_nodup _ _ hinv.1
    · intro oid2 r2 hget
      by_cases he2 : oid2 = e.order_id
      · subst he2
        have hget' : kvGet (kvSet st.orders e.order_id
            ⟨e.symbol, e.order_id, e.side, e.price, e.quantity, e.quantity, .opened⟩)
            e.order_id = some r2 := hget
        rw [kvGet_kvSet_self] at hget'
        injection hget' with hg
        rw [← hg]
        exact ⟨hq, le_refl _⟩
      · have hget' : kvGet (kvSet st.orders e.order_id
            ⟨e.symbol, e.order_id, e.side, e.price, e.quantity, e.quantity, .opened⟩) oid2 =
            some r2 := hget
        rw [kvGet_kvSet_ne _ _ _ _ he2] at hget'
        exact hinv.2 oid2 r2 hget'
  · intro oid2 r2 hget
    refine ⟨r2, ?_, Or.inr rfl, fun _ => rfl⟩
    have hne : oid2 ≠ e.order_id := by
      intro hx
      rw [hx, hfresh] at hget
      cases hget
    show kvGet (kvSet st.orders e.order_id
        ⟨e.symbol, e.order_id, e.side, e.price, e.quantity, e.quantity, .opened⟩) oid2 =
      some r2
    rw [kvGet_kvSet_ne _ _ _ _ hne]
    exact hget

/-- `_on_order_submitted` with a fresh order id succeeds and preserves the
order-store invariant. -/
theorem onOrderSubmitted_ord (fm : FillModelKind) (st : AdapterState) (e : SubmittedEvent)
    (hinv : OrdInv st) (hfresh : kvGet st.orders e.order_id = none) :
    ∃ st', st.onOrderSubmitted fm e = .ok st' ∧ OrdInv st' ∧ OrdEvolve st st' := by
  simp only [AdapterState.onOrderSubmitted]
  by_cases hok : (st.risk.checkNewOrder e.symbol e.side e.quantity e.price
      (some e.order_id)).1.ok = false
  · rw [if_pos hok]
    exact ⟨_, rfl, hinv, OrdEvolve_refl st⟩
  · rw [if_neg hok]
    have hok' : (st.risk.checkNewOrder e.symbol e.side e.quantity e.price
        (some e.order_id)).1.ok = true := by
      cases hb : (st.risk.checkNewOrder e.symbol e.side e.quantity e.price
          (some e.order_id)).1.ok with
      | false => exact absurd hb hok
      | true => rfl
    have hq : 0 ≤ e.quantity :=
      le_of_lt (lt_trans EPS_pos (checkNewOrder_ok_qty hok'))
    have hkey := submitInsert_ord hinv hfresh hq st.bbo_by_symbol
      (addToSymIndex st.orders_by_symbol e.symbol e.order_id) st.positions
      (st.risk.checkNewOrder e.symbol e.side e.quantity e.price (some e.order_id)).2
      (st.sequence + 1)
      (st.emitted ++ [.accepted e.symbol e.order_id e.side e.price e.quantity
        (st.sequence + 1)])
    by_cases hbb : (kvGet st.bbo_by_symbol e.symbol).isSome = true
    · rw [if_pos hbb]
      obtain ⟨st3, h3, hi3, he3⟩ := tryFill_ord fm _ e.order_id hkey.1
      exact ⟨st3, h3, hi3, OrdEvolve_trans hkey.2 he3⟩
    · rw [if_neg hbb]
      exact ⟨_, rfl, hkey.1, hkey.2⟩

/-- One bus dispatch into the adapter with a fresh submitted id preserves
the order-store invariant and only evolves records forward. -/
theorem step_ord {fm : FillModelKind} {st : AdapterState} {ev : AdapterEvent}
    {st' : AdapterState} (hinv : OrdInv st) (hfresh : freshOk st ev)
    (h : st.step fm ev = .ok st') : OrdInv st' ∧ OrdEvolve st st' := by
  rcases ev with e | ⟨sym, oid⟩ | e
  · replace h : st.onOrderSubmitted fm e = .ok st' := h
    have hf : kvGet st.orders e.order_id = none := hfresh
    obtain ⟨st2, heq, hi, he⟩ := onOrderSubmitted_ord fm st e hinv hf
    rw [heq] at h
    injection h with h
    subst h
    exact ⟨hi, he⟩
  · replace h : (Except.ok (st.onCancelRequested sym oid) :
        Except String AdapterState) = .ok st' := h
    injection h with h
    subst h
    exact onCancelRequested_ord st sym oid hinv
  · replace h : st.onBBO fm e = .ok st' := h
    exact onBBO_ord fm st e hinv h

/-- Every reachable adapter state satisfies the order-store invariant. -/
theorem reach_OrdInv {fm : FillModelKind} {limits : RiskLimits} {st : AdapterState}
    (h : AReach fm limits st) : OrdInv st := by
  induction h with
  | init =>
    constructor
    · exact List.nodup_nil
    · intro oid r hget
      cases hget
  | step hr hf hs ih => exact (step_ord ih hf hs).1

/-- **C6**: in every adapter state reachable during a run (dispatches
succeed and submitted order ids are fresh, as the strategy's deterministic
ids are), the order store holds at most one record per order id and every
record satisfies `0 ≤ remaining ≤ quantity`; each successful dispatch only
evolves statuses along a prefix of `open → {filled | canceled | rejected}`
and never modifies a non-open record; and at the record level, fills and
cancels applied to a non-open record change nothing. -/
theorem C6_order_store_invariants {fm : FillModelKind} {limits : RiskLimits}
    {st : AdapterState} (hreach : AReach fm limits st) :
    OrdInv st ∧
    (∀ (ev : AdapterEvent) (st' : AdapterState), freshOk st ev →
      st.step fm ev = .ok st' → OrdEvolve st st') ∧
    (∀ (r : OrderRecord) (fq : ℚ), r.status ≠ .opened →
      r.applyFill fq = .ok r ∧ r.cancel = r) := by
  refine ⟨reach_OrdInv hreach, ?_, ?_⟩
  · intro ev st' hf hs
    exact (step_ord (reach_OrdInv hreach) hf hs).2
  · intro r fq hne
    constructor
    · unfold OrderRecord.applyFill
      rw [if_pos hne]
    · unfold OrderRecord.cancel
      rw [if_pos hne]

/-- Witness for C6 at the (reachable) fresh adapter state. -/
theorem C6_order_store_invariants_witness :
    OrdInv (AdapterState.init ⟨1, 1, none⟩) ∧
    (∀ (ev : AdapterEvent) (st' : AdapterState),
      freshOk (AdapterState.init ⟨1, 1, none⟩) ev →
      (AdapterState.init ⟨1, 1, none⟩).step .capped ev = .ok st' →
      OrdEvolve (AdapterState.init ⟨1, 1, none⟩) st') ∧
    (∀ (r : OrderRecord) (fq : ℚ), r.status ≠ .opened →
      r.applyFill fq = .ok r ∧ r.cancel = r) :=
  C6_order_store_invariants AReach.init

/-- Witness for the amended C2 statement at scenario S2: the single driven
tick extends the journal by lines with sequences 1, 2, 4, 3, a permutation
of the fresh block 1…4. -/
theorem C2_journal_sequences_witness :
    c2res.dispatched = c2res.journal ∧
    (RSys.init "S").sequence ≤ c2res.sequence ∧
    ∃ L, c2res.journal = (RSys.init "S").journal ++ L ∧
      (L.map Prod.snd).Perm (List.range' ((RSys.init "S").sequence + 1)
        (c2res.sequence - (RSys.init "S").sequence)) :=
  @C2_journal_sequences (RSys.init "S") c2delta c2res rfl (by decide)

end MMRL
